import Mathlib

/-!
Verification of the sdl2-life simulation core (main.go) against its
natural-language specification.

The Go source is shallowly embedded: Go `int` becomes `Int` (or `Nat` where
the source keeps the value non-negative), Go slices become `List`, Go
`map[int]bool` rule sets become `Finset Nat`, and fallible operations
(including Go runtime panics such as out-of-range indexing or `%` by zero)
return `Option`/an error-carrying result.  Go's `%` on `int` truncates
toward zero and is modelled with `Int.tmod`; Go's `/` with `Int.tdiv`.
float64 arithmetic in the gradient builders is modelled over `ℚ`; every
concrete input used in a theorem below only exercises float64-exact
operations (small integers, and interpolation parameters t/(n-1) ∈ {0,1}).
Definitions follow the structure of the corresponding Go functions; a few
definitions whose name ends in `Spec` (or is otherwise marked) instead
follow the wording of the specification, for refinement comparisons.
-/

/-! ## Characters, digit strings and Atoi (strconv.Atoi as used here) -/

/-- A decimal digit character, `'0'` through `'9'` (byte values 48–57). -/
def isDigitChar (c : Char) : Bool := 48 ≤ c.toNat && c.toNat ≤ 57

/-- Numeric value of a digit character. -/
def charToDigit (c : Char) : Nat := c.toNat - 48

/-- Value of a decimal digit string, most significant digit first. -/
def strVal (s : List Char) : Nat := s.foldl (fun acc c => 10 * acc + charToDigit c) 0

/-- Model of Go's `strconv.Atoi`: an optional sign followed by a non-empty
run of decimal digits.  Overflow is not modelled: every call site below
either receives at most 10 digits (value < 2^63, no Go overflow) or rejects
the string by a length check before the value is used. -/
def goAtoi (s : List Char) : Option Int :=
  match s with
  | [] => none
  | c :: rest =>
    let neg : Bool := c = '-'
    let ds : List Char := if c = '-' ∨ c = '+' then rest else c :: rest
    if ds.isEmpty || !(ds.all isDigitChar) then none
    else if neg then some (-(strVal ds : Int)) else some ((strVal ds : Int))

/-! ## parseDigits / ParseRulestring (main.go 1075–1146) -/

/-- The digit-extraction loop of `parseDigits`:
`for value > 0 { ruleMap[value%10] = true; value = value / 10 }`.
The first argument is fuel bounding the iteration count; the loop
terminates because `value / 10 < value` for positive `value`, so fuel equal
to the starting value always suffices. -/
def digitSetCore : Nat → Nat → Finset Nat
  | _, 0 => ∅
  | 0, _ + 1 => ∅
  | f + 1, v + 1 => insert ((v + 1) % 10) (digitSetCore f ((v + 1) / 10))

/-- Set of decimal digits of `v` collected by the Go loop. -/
def natDigitsLoop (v : Nat) : Finset Nat := digitSetCore v v

/-- The map built from an `Atoi` result: the loop body only runs while
`value > 0`, so non-positive values yield the empty map. -/
def ruleMapOf (v : Int) : Finset Nat :=
  if 0 < v then natDigitsLoop v.toNat else ∅

/-- `parseDigits` (main.go 1075–1100): errors (returning a nil map) when the
group has more than 10 characters or `Atoi` fails; otherwise returns the
set of decimal digits of the parsed value. -/
def parseDigits (digits : List Char) : Option (Finset Nat) :=
  let lenOk : Bool := digits.length ≤ 10
  match goAtoi digits with
  | none => none
  | some value => if lenOk then some (ruleMapOf value) else none

/-- Go `strings.Split` on the single-character separator `sep`. -/
def splitOnChar (sep : Char) : List Char → List (List Char)
  | [] => [[]]
  | c :: rest =>
    if c = sep then [] :: splitOnChar sep rest
    else
      match splitOnChar sep rest with
      | [] => [[c]]
      | r :: rs => (c :: r) :: rs

/-- Go `strings.TrimPrefix`. -/
def trimPfx (p s : List Char) : List Char :=
  if p.isPrefixOf s then s.drop p.length else s

/-- Go `strings.Contains` (substring search). -/
def containsSeq (pat : List Char) : List Char → Bool
  | [] => pat.isPrefixOf []
  | c :: rest => pat.isPrefixOf (c :: rest) || containsSeq pat rest

/-- Result of `ParseRulestring`: Go returns `(birth, stayAlive, err)` and
every error path returns `nil, nil, err`, modelled as `none` maps plus an
error flag. -/
structure RuleResult where
  birth : Option (Finset Nat)
  stayAlive : Option (Finset Nat)
  err : Bool
deriving DecidableEq

/-- `ParseRulestring` (main.go 1107–1146). -/
def ParseRulestring (rule : List Char) : RuleResult :=
  let e1 : Bool := !(['B'].isPrefixOf rule)
  let e2 : Bool := !(containsSeq ['/', 'S'] rule)
  if e1 || e2 then ⟨none, none, true⟩
  else
    match splitOnChar '/' rule with
    | [f0, f1] =>
      let birth := parseDigits (trimPfx ['B'] f0)
      let stay := parseDigits (trimPfx ['S'] f1)
      if birth.isNone || stay.isNone then ⟨none, none, true⟩ else ⟨birth, stay, false⟩
    | _ => ⟨none, none, true⟩

/-! ## Colors and gradients (main.go 124–260) -/

/-- `RGBAColor`; Go stores `uint8` channels, modelled as `Nat` (all
constructed values stay below 256). -/
structure RGBAColor where
  r : Nat
  g : Nat
  b : Nat
  a : Nat
deriving DecidableEq, Repr

/-- The Go zero value `RGBAColor{}` used by `make([]RGBAColor, maxAge)`. -/
def zeroColor : RGBAColor := ⟨0, 0, 0, 0⟩

/-- `Gradient`. -/
structure Gradient where
  controls : List RGBAColor
  points : List RGBAColor
deriving DecidableEq, Repr

/-- Go's `uint8(f)` conversion applied to the (here always non-negative)
float value, which truncates toward zero. -/
def ratToUint8 (q : ℚ) : Nat := q.floor.toNat

/-- One channel of the linear interpolation
`uint8(float64(start) + (t/(maxAge-1))*(float64(end)-float64(start)))`. -/
def chanLerp (s e : Nat) (t n : Nat) : Nat :=
  ratToUint8 ((s : ℚ) + ((t : ℚ) / ((n : ℚ) - 1)) * ((e : ℚ) - (s : ℚ)))

/-- The color computed for index `t` of a linear gradient of size `n`. -/
def lerpColor (s e : RGBAColor) (t n : Nat) : RGBAColor :=
  ⟨chanLerp s.r e.r t n, chanLerp s.g e.g t n, chanLerp s.b e.b t n, 255⟩

/-- The point table of `NewLinearGradient`. -/
def linearPoints (s e : RGBAColor) (maxAge : Nat) : List RGBAColor :=
  (List.range maxAge).map (fun t => lerpColor s e t maxAge)

/-- `NewLinearGradient` (main.go 153–171): uses only the first and last
input color. -/
def NewLinearGradient (colors : List RGBAColor) (maxAge : Nat) : Except String Gradient :=
  if colors.length < 1 then .error "Linear Gradient requires at least 1 color"
  else
    let s := colors.headD zeroColor
    let e := colors.getLastD zeroColor
    .ok ⟨[s, e], linearPoints s e maxAge⟩

/-- `Gradient.Append` (main.go 143–147) restricted to the point tables:
`for i, p := range from.points { g.points[start+i] = p }`.  All call sites
write within bounds (`List.set` out of bounds, like a Go panic, is never
reached there). -/
def appendPoints (dst : List RGBAColor) : List RGBAColor → Nat → List RGBAColor
  | [], _ => dst
  | p :: rest, start => appendPoints (dst.set start p) rest (start + 1)

/-- Points of a gradient result, with the Go zero `Gradient{}` (empty
points) on error: models `g, _ := NewLinearGradient(...)`. -/
def okPoints (r : Except String Gradient) : List RGBAColor :=
  match r with
  | .ok g => g.points
  | .error _ => []

/-- The segment size `n := int(float64(maxAge) / float64(len(colors)-1))`
of `NewPolylinearGradient`; the float64 quotient truncates to the integer
quotient for the magnitudes an `int` color table can have. -/
def polySegN (colors : List RGBAColor) (maxAge : Nat) : Nat :=
  maxAge / (colors.length - 1)

/-- The point table after `NewPolylinearGradient`'s first
`gradient.Append(g, 0)`: `make([]RGBAColor, maxAge)` overwritten from
index 0 by `NewLinearGradient(colors, n)` — the linear gradient between
the first and *last* control color. -/
def polyBase (colors : List RGBAColor) (maxAge : Nat) : List RGBAColor :=
  appendPoints (List.replicate maxAge zeroColor)
    (okPoints (NewLinearGradient colors (polySegN colors maxAge))) 0

/-- One iteration of `NewPolylinearGradient`'s loop (`i` from 1 to
`len(colors)-2`): appends `NewLinearGradient(colors[i:i+1], n)` — a
one-element slice, hence a constant segment — at offset `i*n`, the last
iteration extended by the remainder. -/
def polyStep (colors : List RGBAColor) (maxAge : Nat) (pts : List RGBAColor) (i : Nat) :
    List RGBAColor :=
  if i = colors.length - 2 then
    appendPoints pts (okPoints (NewLinearGradient ((colors.drop i).take 1)
      (polySegN colors maxAge + (maxAge - (i + 1) * polySegN colors maxAge))))
      (i * polySegN colors maxAge)
  else
    appendPoints pts (okPoints (NewLinearGradient ((colors.drop i).take 1)
      (polySegN colors maxAge))) (i * polySegN colors maxAge)

/-- `NewPolylinearGradient` (main.go 174–202).  Note: the first segment is
`NewLinearGradient(colors, n)` over the whole list (first → last color) and
the loop passes the one-element slice `colors[i:i+1]`. -/
def NewPolylinearGradient (colors : List RGBAColor) (maxAge : Nat) : Except String Gradient :=
  if colors.length < 2 then .error "Polylinear Gradient requires at least 2 colors"
  else if colors.length = 2 then .ok ⟨colors, polyBase colors maxAge⟩
  else
    .ok ⟨colors, (List.range' 1 (colors.length - 2)).foldl (polyStep colors maxAge)
      (polyBase colors maxAge)⟩

/-- `FactorialCache.Fact` (main.go 215–229); the memoization cache is
semantically transparent, the value is the plain recursion. -/
def goFact : Nat → ℚ
  | 0 => 1
  | 1 => 1
  | n + 2 => (n + 2 : ℚ) * goFact (n + 1)

/-- `Bernstein` (main.go 236–240); `math.Pow` with a natural exponent. -/
def Bernstein (t : ℚ) (n i : Nat) : ℚ :=
  goFact n / (goFact i * goFact (n - i)) * (1 - t) ^ (n - i) * t ^ i

/-- The color for age `t` in `NewBezierGradient`'s loop; `color.r +=
uint8(...)` is `uint8` addition, which wraps modulo 256. -/
def bezPoint (controls : List RGBAColor) (maxAge t : Nat) : RGBAColor :=
  let u : ℚ := (t : ℚ) / ((maxAge : ℚ) - 1)
  let n : Nat := controls.length - 1
  let acc := controls.enum.foldl
    (fun (acc : Nat × Nat × Nat) (ic : Nat × RGBAColor) =>
      ((acc.1 + ratToUint8 (Bernstein u n ic.1 * (ic.2.r : ℚ))) % 256,
       (acc.2.1 + ratToUint8 (Bernstein u n ic.1 * (ic.2.g : ℚ))) % 256,
       (acc.2.2 + ratToUint8 (Bernstein u n ic.1 * (ic.2.b : ℚ))) % 256))
    (0, 0, 0)
  ⟨acc.1, acc.2.1, acc.2.2, 255⟩

/-- `NewBezierGradient` (main.go 244–260).  It has no error return. -/
def NewBezierGradient (controls : List RGBAColor) (maxAge : Nat) : Gradient :=
  ⟨controls, (List.range maxAge).map (fun t => bezPoint controls maxAge t)⟩

/-- A constant-color table entry (what a one-color linear segment
produces); for channel values below 256 this is the color with alpha 255. -/
def constColor (c : RGBAColor) : RGBAColor := ⟨c.r, c.g, c.b, 255⟩

/-- What the code's polylinear table actually contains at index `t`
(established below): the first `maxAge/(k)`-sized block interpolates the
first and *last* control color; every later block is constant at control
color `i`; the final block absorbs the remainder. -/
def polyVal (colors : List RGBAColor) (maxAge t : Nat) : RGBAColor :=
  if t < polySegN colors maxAge then
    lerpColor (colors.headD zeroColor) (colors.getLastD zeroColor) t (polySegN colors maxAge)
  else
    constColor (colors.getD
      (if polySegN colors maxAge = 0 then colors.length - 2
       else min (t / polySegN colors maxAge) (colors.length - 2)) zeroColor)

/-- Modelled from the claim/spec wording for `NewPolylinearGradient`:
`len(colors)-1` equal segments of size `floor(maxAge/(len(colors)-1))`,
segment `i` a Linear gradient between the *consecutive* control colors `i`
and `i+1`, the last segment absorbing the remainder. -/
def polylinearClaimPoints (colors : List RGBAColor) (maxAge : Nat) : List RGBAColor :=
  let k := colors.length - 1
  let n := maxAge / k
  (List.range maxAge).map (fun t =>
    let i := min (t / n) (k - 1)
    let segLen := if i = k - 1 then maxAge - (k - 1) * n else n
    lerpColor (colors.getD i zeroColor) (colors.getD (i + 1) zeroColor) (t - i * n) segLen)

/-! ## Cells and the grid (main.go 262–296) -/

/-- `Cell` (main.go 263–271); `age` is kept in `Nat`: it is only ever set
to 0, to an average of ages, or incremented. -/
structure Cell where
  alive : Bool
  aliveNext : Bool
  x : Int
  y : Int
  age : Nat
deriving DecidableEq, Repr

/-- Default cell used for (never exercised in the theorems) out-of-bounds
reads, where Go would panic. -/
def defCell : Cell := ⟨false, false, 0, 0, 0⟩

/-- The simulation-relevant fields of `LifeGame`: the `[row][column]` cell
array, its dimensions, and the rule sets. -/
structure Grid where
  cells : List (List Cell)
  rows : Nat
  columns : Nat
  birth : Finset Nat
  stayAlive : Finset Nat
deriving DecidableEq

/-- `g.cells[y][x]`. -/
def cellAt (g : Grid) (y x : Nat) : Cell := (g.cells.getD y []).getD x defCell

/-- Write the cell at row `y`, column `x`. -/
def setCell (g : Grid) (y x : Nat) (c : Cell) : Grid :=
  { g with cells := g.cells.set y ((g.cells.getD y []).set x c) }

/-- Well-formed grid: `rows × columns` rectangle of cells whose stored
coordinates match their position (as `InitializeCells` guarantees). -/
def WF (g : Grid) : Prop :=
  g.cells.length = g.rows ∧ 0 < g.rows ∧ 0 < g.columns ∧
  (∀ row ∈ g.cells, row.length = g.columns) ∧
  ∀ y, y < g.rows → ∀ x, x < g.columns →
    (cellAt g y x).x = (x : Int) ∧ (cellAt g y x).y = (y : Int)

instance (g : Grid) : Decidable (WF g) := by
  unfold WF; infer_instance

/-- `TranslateXY` (main.go 367–376).  Go's `%` (sign-preserving, hence the
`(v%n + n) % n` dance in the source) is `Int.tmod`; `none` models the Go
panic of `%` by zero on a degenerate grid. -/
def TranslateXY (g : Grid) (x y : Int) : Option (Int × Int) :=
  if g.columns = 0 ∨ g.rows = 0 then none
  else
    let cI : Int := g.columns
    let rI : Int := g.rows
    let x1 := cI.tdiv 2 + x
    let x2 := ((x1.tmod cI) + cI).tmod cI
    let y1 := rI.tdiv 2 + y
    let y2 := ((y1.tmod rI) + rI).tmod rI
    some (x2, y2)

/-- `SetCellState` (main.go 380–391).  The source wraps with a bare
`x % g.columns` (sign-preserving), then indexes `g.cells[y][x]`; `none`
models the Go panic when the wrapped index is out of range (negative) or
the modulus is zero. -/
def SetCellState (g : Grid) (x y : Int) (alive : Bool) : Option (Grid × Int × Int) :=
  if g.columns = 0 ∨ g.rows = 0 then none
  else
    let x1 := x.tmod (g.columns : Int)
    let y1 := y.tmod (g.rows : Int)
    if 0 ≤ y1 ∧ y1.toNat < g.cells.length ∧ 0 ≤ x1 ∧
        x1.toNat < (g.cells.getD y1.toNat []).length then
      let c := cellAt g y1.toNat x1.toNat
      some (setCell g y1.toNat x1.toNat
        { c with alive := alive, aliveNext := alive, age := if alive then c.age else 0 },
        x1, y1)
    else none

/-- The `add` closure of `liveNeighbors` (main.go 663–680): wrap the row
index against `len(g.cells)`, then the column index against the length of
that row, and accumulate (count, age sum) over live cells. -/
def addN (g : Grid) (acc : Nat × Nat) (x y : Int) : Nat × Nat :=
  let y1 : Int :=
    if y = (g.cells.length : Int) then 0
    else if y = -1 then (g.cells.length : Int) - 1 else y
  let row := g.cells.getD y1.toNat []
  let x1 : Int :=
    if x = (row.length : Int) then 0
    else if x = -1 then (row.length : Int) - 1 else x
  let c := row.getD x1.toNat defCell
  if c.alive then (acc.1 + 1, acc.2 + c.age) else acc

/-- `liveNeighbors` (main.go 660–695): the eight probes in source order,
then the truncated average age (0 when no neighbor is alive). -/
def liveNeighbors (g : Grid) (c : Cell) : Nat × Nat :=
  let a := addN g (addN g (addN g (addN g (addN g (addN g (addN g (addN g
    (0, 0) (c.x - 1) c.y) (c.x + 1) c.y) c.x (c.y + 1)) c.x (c.y - 1))
    (c.x - 1) (c.y + 1)) (c.x + 1) (c.y + 1)) (c.x - 1) (c.y - 1)) (c.x + 1) (c.y - 1)
  if a.1 > 0 then (a.1, a.2 / a.1) else (a.1, 0)

/-- `checkState` (main.go 636–657) as the new value of the processed cell:
next state from the rule sets, newborn cells seeded with the neighbors'
average age, then the age advanced in place. -/
def checkState (g : Grid) (c : Cell) : Cell :=
  let r := liveNeighbors g c
  if c.alive then
    let an := decide (r.1 ∈ g.stayAlive)
    { c with aliveNext := an, age := if an then c.age + 1 else 0 }
  else
    let an := decide (r.1 ∈ g.birth)
    { c with aliveNext := an, age := if an then r.2 + 1 else 0 }

/-- One `g.checkState(c)` call of the `NextFrame` loop, at position
`(row, column)`; the Go loop mutates the cell through its pointer. -/
def checkStateAt (g : Grid) (p : Nat × Nat) : Grid :=
  setCell g p.1 p.2 (checkState g (cellAt g p.1 p.2))

/-- The row-major positions visited by `NextFrame`'s double loop. -/
def positionsOf (g : Grid) : List (Nat × Nat) :=
  (List.range g.cells.length).flatMap
    (fun y => (List.range ((g.cells.getD y []).length)).map (fun x => (y, x)))

/-- The cell-update pass of `NextFrame` (main.go 836–843): sequential,
in-place `checkState` over all cells in row-major order. -/
def nextFramePass (g : Grid) : Grid := (positionsOf g).foldl checkStateAt g

/-- The `c.alive = c.aliveNext` sweep performed by `Draw` (main.go 714). -/
def swapAlive (g : Grid) : Grid :=
  { g with cells := g.cells.map (List.map (fun c => { c with alive := c.aliveNext })) }

/-- `NextFrame`'s total effect on the cell array (the live-count/status
bookkeeping and rendering are display-side). -/
def NextFrame (g : Grid) : Grid := swapAlive (nextFramePass g)

/-- Next-state of the cell at `(y, x)` computed from the grid as it is at
the start of the tick. -/
def specNextAlive (g : Grid) (y x : Nat) : Bool :=
  let c := cellAt g y x
  if c.alive then decide ((liveNeighbors g c).1 ∈ g.stayAlive)
  else decide ((liveNeighbors g c).1 ∈ g.birth)

/-- Modelled from the spec wording of `Tick`: all `(count, avgAge)` pairs
are computed from the start-of-tick state (transitions are simultaneous),
newborn cells seed their age from that average, and only then is age
advanced. -/
def tickSimultaneousSpec (g : Grid) : Grid :=
  { g with cells := g.cells.map (List.map (fun c =>
      let r := liveNeighbors g c
      let an := if c.alive then decide (r.1 ∈ g.stayAlive) else decide (r.1 ∈ g.birth)
      let seeded := if !c.alive && an then r.2 else c.age
      { c with aliveNext := an, age := if an then seeded + 1 else 0 })) }

/-- Modelled from the spec wording of `NeighborCount`: the eight
toroidally-wrapped (`Int.emod`, so `-1 ↦ length-1` and `length ↦ 0`)
neighbors of `(x, y)` (listed in the source's probe order), their live
count, and the truncated mean of the live ones' ages (0 when none is
alive). -/
def liveNeighborsSpec (g : Grid) (x y : Nat) : Nat × Nat :=
  let wX : Int → Nat := fun a => (a % (g.columns : Int)).toNat
  let wY : Int → Nat := fun a => (a % (g.rows : Int)).toNat
  let ns : List Cell :=
    [cellAt g (wY y) (wX ((x : Int) - 1)), cellAt g (wY y) (wX ((x : Int) + 1)),
     cellAt g (wY ((y : Int) + 1)) (wX x), cellAt g (wY ((y : Int) - 1)) (wX x),
     cellAt g (wY ((y : Int) + 1)) (wX ((x : Int) - 1)),
     cellAt g (wY ((y : Int) + 1)) (wX ((x : Int) + 1)),
     cellAt g (wY ((y : Int) - 1)) (wX ((x : Int) - 1)),
     cellAt g (wY ((y : Int) - 1)) (wX ((x : Int) + 1))]
  let live := ns.filter (fun c => c.alive)
  (live.length, if live.length = 0 then 0 else (live.map (fun c => c.age)).sum / live.length)

/-- The accumulation step performed by `addN` once the wrapped neighbor
cell has been looked up. -/
def accStep (c : Cell) (acc : Nat × Nat) : Nat × Nat :=
  if c.alive then (acc.1 + 1, acc.2 + c.age) else acc

/-- A concrete `rows × columns` grid for witnesses: `live` lists
`(x, y, age)` for cells that start alive, everything else is dead,
rules `B3/S23`. -/
def mkGrid (rows columns : Nat) (live : List (Nat × Nat × Nat)) : Grid :=
  ⟨(List.range rows).map (fun y => (List.range columns).map (fun x =>
      match live.find? (fun e => e.1 = x && e.2.1 = y) with
      | some e => ⟨true, true, (x : Int), (y : Int), e.2.2⟩
      | none => ⟨false, false, (x : Int), (y : Int), 0⟩)),
   rows, columns, {3}, {2, 3}⟩

/-! ## RLE header regex and ParseRLE (main.go 33–35, 540–633) -/

/-- `\s` of the header regex. -/
def isSpaceChar (c : Char) : Bool :=
  c = ' ' || c = '\t' || c = '\n' || c = '\x0b' || c = '\x0c' || c = '\r'

/-- Consume `\s*`. -/
def skipWs (s : List Char) : List Char := s.dropWhile isSpaceChar

/-- Match a literal, returning the remainder. -/
def matchLit (lit s : List Char) : Option (List Char) :=
  if lit.isPrefixOf s then some (s.drop lit.length) else none

/-- The optional `(?:\s*,\s*rule\s*=\s*(.*))*` tail of the header regex:
when it matches, the greedy `(.*)` captures the rest of the line (so the
star iterates at most once effectively); when it does not, the regex
matches with the rule group not participating. -/
def matchRulePart (s : List Char) : Option (List Char) :=
  match matchLit [','] (skipWs s) with
  | none => none
  | some s1 =>
    match matchLit ['r', 'u', 'l', 'e'] (skipWs s1) with
    | none => none
    | some s2 =>
      match matchLit ['='] (skipWs s2) with
      | none => none
      | some s3 => some (skipWs s3)

/-- Attempt to match `rleHeaderRegex` at the start of `s`:
`x\s*=\s*(\d+)\s*,\s*y\s*=\s*(\d+)` followed by the optional rule tail.
Returns the three capture groups; per Go's `FindStringSubmatch`, a
non-participating rule group is reported as the empty string. -/
def matchHeaderAt (s : List Char) : Option (List Char × List Char × List Char) :=
  match matchLit ['x'] s with
  | none => none
  | some s1 =>
    match matchLit ['='] (skipWs s1) with
    | none => none
    | some s2 =>
      let d1 := (skipWs s2).takeWhile isDigitChar
      let s3 := (skipWs s2).dropWhile isDigitChar
      if d1.isEmpty then none
      else
        match matchLit [','] (skipWs s3) with
        | none => none
        | some s4 =>
          match matchLit ['y'] (skipWs s4) with
          | none => none
          | some s5 =>
            match matchLit ['='] (skipWs s5) with
            | none => none
            | some s6 =>
              let d2 := (skipWs s6).takeWhile isDigitChar
              let s7 := (skipWs s6).dropWhile isDigitChar
              if d2.isEmpty then none
              else
                match matchRulePart s7 with
                | some r => some (d1, d2, r)
                | none => some (d1, d2, [])

/-- Leftmost match of the (unanchored) header regex in a line, i.e.
`rleHeaderRegex.FindStringSubmatch`. -/
def findHeaderMatch : List Char → Option (List Char × List Char × List Char)
  | [] => matchHeaderAt []
  | c :: rest =>
    match matchHeaderAt (c :: rest) with
    | some r => some r
    | none => findHeaderMatch rest

/-- `isRLE` (main.go 540–547). -/
def isRLE (lines : List (List Char)) : Bool :=
  lines.any (fun l => (findHeaderMatch l).isSome)

/-- Outcome of `ParseRLE`'s pre-header scan loop (main.go 558–571). -/
inductive ScanOutcome where
  | found (w h r : List Char) (rest : List (List Char))
  | headerErr
deriving DecidableEq

/-- The pre-header scan: try the regex on each line; a non-matching line is
required to start with `'#'` — the source reads `line[0]` without a
non-emptiness check, so an empty non-matching line is an out-of-range panic
(`none`).  If no line matches, `header` stays nil and the caller reports
the missing-header error. -/
def scanHeader : List (List Char) → Option ScanOutcome
  | [] => some .headerErr
  | line :: rest =>
    match findHeaderMatch line with
    | some (w, h, r) => some (.found w h r rest)
    | none =>
      match line with
      | [] => none
      | c :: _ => if c = '#' then scanHeader rest else some .headerErr

/-- The inner loop of `FillDead` (main.go 410–420): `jlen = width - x` dead
cells from the current position; `SetCellState` wraps and returns the
coordinates it wrote. -/
def fillDeadRow (g : Grid) (x y : Int) : Nat → Option (Grid × Int × Int)
  | 0 => some (g, x, y)
  | j + 1 =>
    match SetCellState g x y false with
    | none => none
    | some (g1, x1, y1) => fillDeadRow g1 (x1 + 1) y1 j

/-- `FillDead` (main.go 410–420): `height` rows; the first row starts at
`x`, the following rows at `xEdge`; each row writes `width - x` cells
(a non-positive count writes nothing). -/
def FillDead (g : Grid) (xEdge x y width : Int) : Nat → Option Grid
  | 0 => some g
  | h + 1 =>
    match fillDeadRow g x y (width - x).toNat with
    | none => none
    | some (g1, _, y1) => FillDead g1 xEdge xEdge (y1 + 1) width h

/-- A run of `count` cells written by `ParseRLE`'s default branch
(main.go 625–628). -/
def applyRun (g : Grid) (xLine y : Int) (alive : Bool) : Nat → Option (Grid × Int × Int)
  | 0 => some (g, xLine, y)
  | k + 1 =>
    match SetCellState g xLine y alive with
    | none => none
    | some (g1, x1, y1) => applyRun g1 (x1 + 1) y1 alive k

/-- State of the RLE body decoder: grid, cursor, pending run count. -/
structure RLESt where
  g : Grid
  xLine : Int
  y : Int
  count : Nat
deriving DecidableEq

/-- One body character of `ParseRLE` (main.go 592–630).  `x`/`yStart` are
the translated pattern origin, `width`/`height` the header values.
`Sum.inr` is the early `return nil` on `'!'`. -/
def rleChar (width height x yStart : Int) (st : RLESt) (c : Char) : Option (RLESt ⊕ Grid) :=
  if c = '$' then
    let count := if st.count = 0 then 1 else st.count
    match FillDead st.g x st.xLine st.y width count with
    | none => none
    | some g1 => some (.inl ⟨g1, x, st.y + count, 0⟩)
  else if c = '!' then
    match FillDead st.g x st.xLine st.y width (height - (st.y - yStart)).toNat with
    | none => none
    | some g1 => some (.inr g1)
  else if isDigitChar c then
    some (.inl { st with count := st.count * 10 + charToDigit c })
  else
    let count := if st.count = 0 then 1 else st.count
    match applyRun st.g st.xLine st.y (c ≠ 'b') count with
    | none => none
    | some (g1, x1, y1) => some (.inl ⟨g1, x1, y1, 0⟩)

/-- The body characters of one line. -/
def rleLine (width height x yStart : Int) : List Char → RLESt → Option (RLESt ⊕ Grid)
  | [], st => some (.inl st)
  | c :: cs, st =>
    match rleChar width height x yStart st c with
    | none => none
    | some (.inl st1) => rleLine width height x yStart cs st1
    | some (.inr g1) => some (.inr g1)

/-- The body lines after the header; falling off the end is the final
`return nil` (success with the current grid). -/
def rleBody (width height x yStart : Int) : List (List Char) → RLESt → Option Grid
  | [], st => some st.g
  | l :: ls, st =>
    match rleLine width height x yStart l st with
    | none => none
    | some (.inl st1) => rleBody width height x yStart ls st1
    | some (.inr g1) => some g1

/-- `ParseRLE` (main.go 552–633), returning the decoded grid together with
the final value of the shared `cfg.Rule`.  Because Go's
`FindStringSubmatch` always returns `1 + number-of-groups` entries on a
match (with `""` for a non-participating group), `len(header) == 4` holds
for every matching line and `cfg.Rule = header[3]` runs unconditionally
once the width/height checks pass.  The outer `none` is a Go panic, the
`Except.error` the function's error returns. -/
def ParseRLE (cfgRule : List Char) (g : Grid) (lines : List (List Char)) (x0 y0 : Int) :
    Option (Except String (Grid × List Char)) :=
  match TranslateXY g x0 y0 with
  | none => none
  | some (x, y) =>
    match scanHeader lines with
    | none => none
    | some .headerErr => some (.error "Incorrect or missing RLE header")
    | some (.found ws hs rs rest) =>
      if rest.isEmpty then some (.error "Missing lines after RLE header")
      else
        match goAtoi ws with
        | none => some (.error "Error parsing width")
        | some w =>
          match goAtoi hs with
          | none => some (.error "Error parsing height")
          | some h =>
            match rleBody w h x y rest ⟨g, x, y, 0⟩ with
            | none => none
            | some g1 => some (.ok (g1, rs))

/-- The `cfg.Rule` value produced by a successful `ParseRLE`. -/
def rleRuleOf (r : Option (Except String (Grid × List Char))) : Option (List Char) :=
  match r with
  | some (.ok (_, ru)) => some ru
  | _ => none

/-- The live flag of cell `(y, x)` after a successful `ParseRLE`. -/
def rleAliveAt (r : Option (Except String (Grid × List Char))) (y x : Nat) : Option Bool :=
  match r with
  | some (.ok (g, _)) => some (cellAt g y x).alive
  | _ => none

/-! ## Helper lemmas: lists and integer wrapping -/

theorem getD_set_self {α : Type} (l : List α) (i : Nat) (a d : α) (h : i < l.length) :
    (l.set i a).getD i d = a := by
  rw [List.getD_eq_getElem?_getD, List.getElem?_set]
  simp [h]

theorem getD_set_ne {α : Type} (l : List α) {i j : Nat} (a : α) (d : α) (h : i ≠ j) :
    (l.set i a).getD j d = l.getD j d := by
  rw [List.getD_eq_getElem?_getD, List.getElem?_set, if_neg h, ← List.getD_eq_getElem?_getD]

theorem getD_set_split {α : Type} (l : List α) (i k : Nat) (a d : α) :
    (l.set i a).getD k d = if i = k ∧ i < l.length then a else l.getD k d := by
  rcases eq_or_ne i k with rfl | h
  · rcases Nat.lt_or_ge i l.length with h2 | h2
    · simp [List.getD_eq_getElem?_getD, List.getElem?_set, h2]
    · simp [List.getD_eq_getElem?_getD, List.getElem?_set, Nat.not_lt.2 h2,
        List.getElem?_eq_none h2]
  · simp [List.getD_eq_getElem?_getD, List.getElem?_set, h]

theorem cellAt_setCell (g : Grid) (yw xw : Nat) (c : Cell) (i j : Nat) :
    cellAt (setCell g yw xw c) i j =
      if yw = i ∧ yw < g.cells.length then
        (if xw = j ∧ xw < (g.cells.getD yw []).length then c else cellAt g i j)
      else cellAt g i j := by
  show ((g.cells.set yw ((g.cells.getD yw []).set xw c)).getD i []).getD j defCell = _
  rw [getD_set_split]
  by_cases h1 : yw = i ∧ yw < g.cells.length
  · rw [if_pos h1, if_pos h1, getD_set_split]
    obtain ⟨rfl, _⟩ := h1
    rfl
  · rw [if_neg h1, if_neg h1]
    rfl

theorem cellAt_setCell_self (g : Grid) (yw xw : Nat) (c : Cell)
    (h1 : yw < g.cells.length) (h2 : xw < (g.cells.getD yw []).length) :
    cellAt (setCell g yw xw c) yw xw = c := by
  rw [cellAt_setCell, if_pos ⟨rfl, h1⟩, if_pos ⟨rfl, h2⟩]

theorem cellAt_setCell_ne (g : Grid) (yw xw : Nat) (c : Cell) (i j : Nat)
    (h : ¬(i = yw ∧ j = xw)) :
    cellAt (setCell g yw xw c) i j = cellAt g i j := by
  rw [cellAt_setCell]
  by_cases h1 : yw = i ∧ yw < g.cells.length
  · rw [if_pos h1]
    have hj : ¬(xw = j ∧ xw < (g.cells.getD yw []).length) := by
      rintro ⟨rfl, -⟩
      exact h ⟨h1.1.symm, rfl⟩
    rw [if_neg hj]
  · rw [if_neg h1]

theorem setCell_meta (g : Grid) (yw xw : Nat) (c : Cell) :
    (setCell g yw xw c).rows = g.rows ∧ (setCell g yw xw c).columns = g.columns ∧
    (setCell g yw xw c).birth = g.birth ∧ (setCell g yw xw c).stayAlive = g.stayAlive ∧
    (setCell g yw xw c).cells.length = g.cells.length ∧
    ∀ i, ((setCell g yw xw c).cells.getD i []).length = (g.cells.getD i []).length := by
  refine ⟨rfl, rfl, rfl, rfl, List.length_set .., fun i => ?_⟩
  show ((g.cells.set yw ((g.cells.getD yw []).set xw c)).getD i []).length = _
  rw [getD_set_split]
  by_cases h1 : yw = i ∧ yw < g.cells.length
  · rw [if_pos h1, List.length_set]
    obtain ⟨rfl, -⟩ := h1
    rfl
  · rw [if_neg h1]

theorem WF_rowlen {g : Grid} (hWF : WF g) {i : Nat} (hi : i < g.rows) :
    (g.cells.getD i []).length = g.columns := by
  obtain ⟨hlen, _, _, hrow, _⟩ := hWF
  have hi' : i < g.cells.length := by omega
  rw [List.getD_eq_getElem?_getD, List.getElem?_eq_getElem hi']
  exact hrow _ (List.getElem_mem hi')

theorem wrapIf_eq_emod {L a : Int} (hL : 0 < L) (h1 : -1 ≤ a) (h2 : a ≤ L) :
    (if a = L then 0 else if a = -1 then L - 1 else a) = a % L := by
  rcases eq_or_ne a L with rfl | hne
  · rw [if_pos rfl, Int.emod_self]
  · rw [if_neg hne]
    rcases eq_or_ne a (-1) with rfl | hne1
    · rw [if_pos rfl]
      have h3 : (-1 : Int) + L * 1 = L - 1 := by ring
      have h4 : ((-1 : Int) + L * 1) % L = (-1 : Int) % L := Int.add_mul_emod_self_left ..
      rw [h3] at h4
      rw [← h4, Int.emod_eq_of_lt (by omega) (by omega)]
    · rw [if_neg hne1, Int.emod_eq_of_lt (by omega) (by omega)]

/-! ## C7: SetCellState wrapping -/

/-- C7 (amended): for non-negative coordinates on a well-formed grid,
`SetCellState` wraps `x` into `[0, columns)` and `y` into `[0, rows)`,
returns the wrapped pair, rewrites exactly the cell at the wrapped
position (`alive` and `aliveNext` set together, `age` zeroed on death) and
leaves every other cell untouched.  (For negative inputs the bare
sign-preserving `%` makes the index negative and Go panics; see the
counterexample.) -/
theorem C7_set_cell_state_wrap (g : Grid) (x y : Int) (v : Bool)
    (hWF : WF g) (hx : 0 ≤ x) (hy : 0 ≤ y) :
    ∃ g1, SetCellState g x y v = some (g1, x % (g.columns : Int), y % (g.rows : Int)) ∧
      0 ≤ x % (g.columns : Int) ∧ x % (g.columns : Int) < g.columns ∧
      0 ≤ y % (g.rows : Int) ∧ y % (g.rows : Int) < g.rows ∧
      cellAt g1 (y % (g.rows : Int)).toNat (x % (g.columns : Int)).toNat =
        { cellAt g (y % (g.rows : Int)).toNat (x % (g.columns : Int)).toNat with
            alive := v, aliveNext := v,
            age := if v then (cellAt g (y % (g.rows : Int)).toNat (x % (g.columns : Int)).toNat).age
                   else 0 } ∧
      ∀ i j, ¬(i = (y % (g.rows : Int)).toNat ∧ j = (x % (g.columns : Int)).toNat) →
        cellAt g1 i j = cellAt g i j := by
  obtain ⟨hlen, hr, hc, hrow, hxy⟩ := hWF
  have hcn : ((g.columns : Int)) ≠ 0 := by omega
  have hrn : ((g.rows : Int)) ≠ 0 := by omega
  have hx1 : x.tmod (g.columns : Int) = x % (g.columns : Int) := Int.tmod_eq_emod hx (by omega)
  have hy1 : y.tmod (g.rows : Int) = y % (g.rows : Int) := Int.tmod_eq_emod hy (by omega)
  have hxe0 : 0 ≤ x % (g.columns : Int) := Int.emod_nonneg x hcn
  have hxel : x % (g.columns : Int) < g.columns := Int.emod_lt_of_pos x (by omega)
  have hye0 : 0 ≤ y % (g.rows : Int) := Int.emod_nonneg y hrn
  have hyel : y % (g.rows : Int) < g.rows := Int.emod_lt_of_pos y (by omega)
  have hywlt : (y % (g.rows : Int)).toNat < g.cells.length := by omega
  have hrl : ((g.cells.getD (y % (g.rows : Int)).toNat []).length) = g.columns :=
    WF_rowlen ⟨hlen, hr, hc, hrow, hxy⟩ (by omega)
  have hxwlt : (x % (g.columns : Int)).toNat < (g.cells.getD (y % (g.rows : Int)).toNat []).length := by
    omega
  have hmain : SetCellState g x y v =
      some (setCell g (y % (g.rows : Int)).toNat (x % (g.columns : Int)).toNat
        { cellAt g (y % (g.rows : Int)).toNat (x % (g.columns : Int)).toNat with
            alive := v, aliveNext := v,
            age := if v then
                (cellAt g (y % (g.rows : Int)).toNat (x % (g.columns : Int)).toNat).age
              else 0 },
        x % (g.columns : Int), y % (g.rows : Int)) := by
    unfold SetCellState
    rw [if_neg (by omega)]
    simp only [hx1, hy1]
    rw [if_pos ⟨hye0, hywlt, hxe0, hxwlt⟩]
  refine ⟨_, hmain, hxe0, hxel, hye0, hyel, ?_, ?_⟩
  · exact cellAt_setCell_self _ _ _ _ hywlt hxwlt
  · intro i j hij
    exact cellAt_setCell_ne _ _ _ _ _ _ hij

/-- C7 witness: a concrete in-range use of the wrap theorem. -/
theorem C7_set_cell_state_wrap_witness :
    ∃ g1, SetCellState (mkGrid 3 3 []) 5 7 true =
        some (g1, (5 : Int) % ((mkGrid 3 3 []).columns : Int), (7 : Int) % ((mkGrid 3 3 []).rows : Int)) ∧
      0 ≤ (5 : Int) % ((mkGrid 3 3 []).columns : Int) ∧
      (5 : Int) % ((mkGrid 3 3 []).columns : Int) < (mkGrid 3 3 []).columns ∧
      0 ≤ (7 : Int) % ((mkGrid 3 3 []).rows : Int) ∧
      (7 : Int) % ((mkGrid 3 3 []).rows : Int) < (mkGrid 3 3 []).rows ∧
      cellAt g1 ((7 : Int) % ((mkGrid 3 3 []).rows : Int)).toNat
          ((5 : Int) % ((mkGrid 3 3 []).columns : Int)).toNat =
        { cellAt (mkGrid 3 3 []) ((7 : Int) % ((mkGrid 3 3 []).rows : Int)).toNat
            ((5 : Int) % ((mkGrid 3 3 []).columns : Int)).toNat with
            alive := true, aliveNext := true,
            age := if true then (cellAt (mkGrid 3 3 [])
                ((7 : Int) % ((mkGrid 3 3 []).rows : Int)).toNat
                ((5 : Int) % ((mkGrid 3 3 []).columns : Int)).toNat).age else 0 } ∧
      ∀ i j, ¬(i = ((7 : Int) % ((mkGrid 3 3 []).rows : Int)).toNat ∧
          j = ((5 : Int) % ((mkGrid 3 3 []).columns : Int)).toNat) →
        cellAt g1 i j = cellAt (mkGrid 3 3 []) i j :=
  C7_set_cell_state_wrap (mkGrid 3 3 []) 5 7 true (by decide) (by decide) (by decide)

/-- C7 counterexample: the claim promises wrapping "for every integer
coordinate pair x,y (including negative ... values)", but `x % g.columns`
in Go keeps the sign of `x`, so `SetCellState(-1, 0, ...)` indexes the cell
array at `-1` and panics instead of wrapping to `columns-1`. -/
theorem C7_negative_coordinate_counterexample :
    SetCellState (mkGrid 3 3 []) (-1) 0 true = none := by decide

/-! ## C3: liveNeighbors examines the 8 toroidally wrapped neighbors -/

theorem accStep_fst (c : Cell) (acc : Nat × Nat) :
    (accStep c acc).1 = acc.1 + (if c.alive then 1 else 0) := by
  unfold accStep
  by_cases h : c.alive <;> simp [h]

theorem accStep_snd (c : Cell) (acc : Nat × Nat) :
    (accStep c acc).2 = acc.2 + (if c.alive then c.age else 0) := by
  unfold accStep
  by_cases h : c.alive <;> simp [h]

theorem filter_cons_length {α : Type} (p : α → Bool) (c : α) (l : List α) :
    (List.filter p (c :: l)).length = (if p c then 1 else 0) + (List.filter p l).length := by
  by_cases h : p c <;> simp [List.filter_cons, h] <;> omega

theorem filter_map_sum_cons {α : Type} (f : α → Nat) (p : α → Bool) (c : α) (l : List α) :
    ((List.filter p (c :: l)).map f).sum =
      (if p c then f c else 0) + ((List.filter p l).map f).sum := by
  by_cases h : p c <;> simp [List.filter_cons, h]

theorem pairAvg_eq (A B A' B' : Nat) (hA : A = A') (hB : B = B') :
    (if A > 0 then (A, B / A) else (A, 0)) = (A', if A' = 0 then 0 else B' / A') := by
  subst hA
  subst hB
  rcases Nat.eq_zero_or_pos A with h0 | hpos
  · subst h0
    simp
  · rw [if_pos hpos, if_neg (by omega)]

/-- The conditional wrap of `addN` agrees with toroidal `emod` wrapping on
the coordinate range `[-1, length]` that in-range cells produce. -/
theorem addN_eq (g : Grid) (acc : Nat × Nat) (x y : Int)
    (hcl : g.cells.length = g.rows)
    (hrow : ∀ i, i < g.rows → (g.cells.getD i []).length = g.columns)
    (hr : 0 < g.rows) (hc : 0 < g.columns)
    (hy1 : -1 ≤ y) (hy2 : y ≤ (g.rows : Int)) (hx1 : -1 ≤ x) (hx2 : x ≤ (g.columns : Int)) :
    addN g acc x y =
      accStep (cellAt g ((y % (g.rows : Int)).toNat) ((x % (g.columns : Int)).toNat)) acc := by
  simp only [addN, accStep, cellAt]
  have hcast : ((g.cells.length : Int)) = ((g.rows : Int)) := by exact_mod_cast hcl
  rw [hcast, wrapIf_eq_emod (by omega) hy1 hy2]
  have hyw : (y % (g.rows : Int)).toNat < g.rows := by
    have h1 := Int.emod_nonneg y (show ((g.rows : Int)) ≠ 0 by omega)
    have h2 := Int.emod_lt_of_pos y (show (0 : Int) < (g.rows : Int) by omega)
    omega
  rw [hrow _ hyw, wrapIf_eq_emod (by omega) hx1 hx2]

/-- C3: on a well-formed grid, `liveNeighbors` of an in-range cell examines
exactly the 8 toroidally wrapped neighbors (`-1 ↦ length-1`, `length ↦ 0`,
independently per axis) and returns their live count together with the
truncated mean age of the live ones (0 when none is alive). -/
theorem C3_liveNeighbors_toroidal (g : Grid) (x y : Nat)
    (hWF : WF g) (hy : y < g.rows) (hx : x < g.columns) :
    liveNeighbors g (cellAt g y x) = liveNeighborsSpec g x y := by
  obtain ⟨hlen, hr, hc, hrowm, hxy⟩ := hWF
  have hrow : ∀ i, i < g.rows → (g.cells.getD i []).length = g.columns :=
    fun i hi => WF_rowlen ⟨hlen, hr, hc, hrowm, hxy⟩ hi
  obtain ⟨hcx, hcy⟩ := hxy y hy x hx
  have haddN : ∀ (acc : Nat × Nat) (a b : Int), -1 ≤ b → b ≤ (g.rows : Int) →
      -1 ≤ a → a ≤ (g.columns : Int) →
      addN g acc a b =
        accStep (cellAt g ((b % (g.rows : Int)).toNat) ((a % (g.columns : Int)).toNat)) acc :=
    fun acc a b h1 h2 h3 h4 => addN_eq g acc a b hlen hrow hr hc h1 h2 h3 h4
  simp only [liveNeighbors, liveNeighborsSpec, hcx, hcy]
  rw [haddN _ ((x : Int) + 1) ((y : Int) - 1) (by omega) (by omega) (by omega) (by omega)]
  rw [haddN _ ((x : Int) - 1) ((y : Int) - 1) (by omega) (by omega) (by omega) (by omega)]
  rw [haddN _ ((x : Int) + 1) ((y : Int) + 1) (by omega) (by omega) (by omega) (by omega)]
  rw [haddN _ ((x : Int) - 1) ((y : Int) + 1) (by omega) (by omega) (by omega) (by omega)]
  rw [haddN _ ((x : Int)) ((y : Int) - 1) (by omega) (by omega) (by omega) (by omega)]
  rw [haddN _ ((x : Int)) ((y : Int) + 1) (by omega) (by omega) (by omega) (by omega)]
  rw [haddN _ ((x : Int) + 1) ((y : Int)) (by omega) (by omega) (by omega) (by omega)]
  rw [haddN _ ((x : Int) - 1) ((y : Int)) (by omega) (by omega) (by omega) (by omega)]
  simp only [accStep_fst, accStep_snd, filter_cons_length, filter_map_sum_cons,
    List.filter_nil, List.length_nil, List.map_nil, List.sum_nil]
  exact pairAvg_eq _ _ _ _ (by omega) (by omega)

/-- C3 witness: the toroidal-neighbor theorem at a concrete 3×3 grid. -/
theorem C3_liveNeighbors_toroidal_witness :
    WF (mkGrid 3 3 [(0, 0, 5), (2, 2, 8)]) ∧
    liveNeighbors (mkGrid 3 3 [(0, 0, 5), (2, 2, 8)])
        (cellAt (mkGrid 3 3 [(0, 0, 5), (2, 2, 8)]) 0 0) =
      liveNeighborsSpec (mkGrid 3 3 [(0, 0, 5), (2, 2, 8)]) 0 0 :=
  ⟨by decide, C3_liveNeighbors_toroidal (mkGrid 3 3 [(0, 0, 5), (2, 2, 8)]) 0 0
    (by decide) (by decide) (by decide)⟩

/-! ## C1: the NextFrame pass -/

theorem fst_if_pair {c : Prop} [Decidable c] (a x y : Nat) :
    (if c then (a, x) else (a, y)).1 = a := by
  split <;> rfl

theorem liveNeighbors_fst (g : Grid) (c : Cell) :
    (liveNeighbors g c).1 = (addN g (addN g (addN g (addN g (addN g (addN g (addN g (addN g
      (0, 0) (c.x - 1) c.y) (c.x + 1) c.y) c.x (c.y + 1)) c.x (c.y - 1))
      (c.x - 1) (c.y + 1)) (c.x + 1) (c.y + 1)) (c.x - 1) (c.y - 1)) (c.x + 1) (c.y - 1)).1 := by
  simp only [liveNeighbors]
  exact fst_if_pair _ _ _

theorem checkState_fields (g : Grid) (c : Cell) :
    (checkState g c).alive = c.alive ∧ (checkState g c).x = c.x ∧ (checkState g c).y = c.y := by
  unfold checkState
  by_cases h : c.alive <;> simp [h]

theorem cellAt_checkStateAt_self (g : Grid) (py px : Nat)
    (h1 : py < g.cells.length) (h2 : px < (g.cells.getD py []).length) :
    cellAt (checkStateAt g (py, px)) py px = checkState g (cellAt g py px) :=
  cellAt_setCell_self g py px _ h1 h2

theorem cellAt_checkStateAt_ne (g : Grid) (p : Nat × Nat) (i j : Nat)
    (h : ¬(i = p.1 ∧ j = p.2)) :
    cellAt (checkStateAt g p) i j = cellAt g i j :=
  cellAt_setCell_ne g p.1 p.2 _ i j h

theorem checkStateAt_meta (g : Grid) (p : Nat × Nat) :
    (checkStateAt g p).rows = g.rows ∧ (checkStateAt g p).columns = g.columns ∧
    (checkStateAt g p).birth = g.birth ∧ (checkStateAt g p).stayAlive = g.stayAlive ∧
    (checkStateAt g p).cells.length = g.cells.length ∧
    (∀ i, ((checkStateAt g p).cells.getD i []).length = (g.cells.getD i []).length) ∧
    (∀ i j, (cellAt (checkStateAt g p) i j).alive = (cellAt g i j).alive ∧
            (cellAt (checkStateAt g p) i j).x = (cellAt g i j).x ∧
            (cellAt (checkStateAt g p) i j).y = (cellAt g i j).y) := by
  obtain ⟨h1, h2, h3, h4, h5, h6⟩ := setCell_meta g p.1 p.2 (checkState g (cellAt g p.1 p.2))
  refine ⟨h1, h2, h3, h4, h5, h6, ?_⟩
  intro i j
  have hsc : checkStateAt g p = setCell g p.1 p.2 (checkState g (cellAt g p.1 p.2)) := rfl
  rw [hsc, cellAt_setCell]
  by_cases hc : p.1 = i ∧ p.1 < g.cells.length
  · rw [if_pos hc]
    by_cases hd : p.2 = j ∧ p.2 < (g.cells.getD p.1 []).length
    · rw [if_pos hd]
      obtain ⟨rfl, -⟩ := hc
      obtain ⟨rfl, -⟩ := hd
      exact checkState_fields g (cellAt g p.1 p.2)
    · rw [if_neg hd]
      exact ⟨rfl, rfl, rfl⟩
  · rw [if_neg hc]
    exact ⟨rfl, rfl, rfl⟩

theorem foldl_check_invariant (ps : List (Nat × Nat)) (g : Grid) :
    (ps.foldl checkStateAt g).rows = g.rows ∧
    (ps.foldl checkStateAt g).columns = g.columns ∧
    (ps.foldl checkStateAt g).birth = g.birth ∧
    (ps.foldl checkStateAt g).stayAlive = g.stayAlive ∧
    (ps.foldl checkStateAt g).cells.length = g.cells.length ∧
    (∀ i, (((ps.foldl checkStateAt g).cells.getD i []).length = (g.cells.getD i []).length)) ∧
    (∀ i j, (cellAt (ps.foldl checkStateAt g) i j).alive = (cellAt g i j).alive ∧
            (cellAt (ps.foldl checkStateAt g) i j).x = (cellAt g i j).x ∧
            (cellAt (ps.foldl checkStateAt g) i j).y = (cellAt g i j).y) := by
  induction ps generalizing g with
  | nil =>
    exact ⟨rfl, rfl, rfl, rfl, rfl, fun i => rfl, fun i j => ⟨rfl, rfl, rfl⟩⟩
  | cons p ps ih =>
    obtain ⟨s1, s2, s3, s4, s5, s6, s7⟩ := checkStateAt_meta g p
    obtain ⟨f1, f2, f3, f4, f5, f6, f7⟩ := ih (checkStateAt g p)
    simp only [List.foldl_cons]
    refine ⟨f1.trans s1, f2.trans s2, f3.trans s3, f4.trans s4, f5.trans s5,
      fun i => (f6 i).trans (s6 i), fun i j => ?_⟩
    obtain ⟨a1, a2, a3⟩ := f7 i j
    obtain ⟨b1, b2, b3⟩ := s7 i j
    exact ⟨a1.trans b1, a2.trans b2, a3.trans b3⟩

theorem foldl_check_untouched (ps : List (Nat × Nat)) (g : Grid) (q : Nat × Nat)
    (h : q ∉ ps) :
    cellAt (ps.foldl checkStateAt g) q.1 q.2 = cellAt g q.1 q.2 := by
  induction ps generalizing g with
  | nil => rfl
  | cons p ps ih =>
    simp only [List.foldl_cons]
    have hq : q ∉ ps := fun hm => h (List.mem_cons_of_mem _ hm)
    have hne : ¬(q.1 = p.1 ∧ q.2 = p.2) := by
      rintro ⟨e1, e2⟩
      exact h (by rw [Prod.ext e1 e2]; exact List.mem_cons_self _ _)
    rw [ih (checkStateAt g p) hq, cellAt_checkStateAt_ne g p q.1 q.2 hne]

/-- The live-neighbor count only depends on the shape of the grid, the
`alive` fields, and the probing cell's coordinates. -/
theorem liveNeighbors_fst_eq (g1 g2 : Grid) (c1 c2 : Cell)
    (hrows : g1.rows = g2.rows) (hcols : g1.columns = g2.columns)
    (hlen1 : g1.cells.length = g1.rows) (hlen2 : g2.cells.length = g2.rows)
    (hrow1 : ∀ i, i < g1.rows → (g1.cells.getD i []).length = g1.columns)
    (hrow2 : ∀ i, i < g2.rows → (g2.cells.getD i []).length = g2.columns)
    (hr : 0 < g2.rows) (hc : 0 < g2.columns)
    (halive : ∀ i j, (cellAt g1 i j).alive = (cellAt g2 i j).alive)
    (hcx : c1.x = c2.x) (hcy : c1.y = c2.y)
    (hbx0 : 0 ≤ c2.x) (hbx1 : c2.x < (g2.columns : Int))
    (hby0 : 0 ≤ c2.y) (hby1 : c2.y < (g2.rows : Int)) :
    (liveNeighbors g1 c1).1 = (liveNeighbors g2 c2).1 := by
  have E1 : ∀ (a b : Int), -1 ≤ b → b ≤ (g2.rows : Int) → -1 ≤ a → a ≤ (g2.columns : Int) →
      ∀ acc, addN g1 acc a b =
        accStep (cellAt g1 ((b % (g2.rows : Int)).toNat) ((a % (g2.columns : Int)).toNat)) acc := by
    intro a b h1 h2 h3 h4 acc
    have h := addN_eq g1 acc a b hlen1 hrow1 (by omega) (by omega) h1 (by rw [hrows]; exact h2)
      h3 (by rw [hcols]; exact h4)
    rw [hrows, hcols] at h
    exact h
  have E2 : ∀ (a b : Int), -1 ≤ b → b ≤ (g2.rows : Int) → -1 ≤ a → a ≤ (g2.columns : Int) →
      ∀ acc, addN g2 acc a b =
        accStep (cellAt g2 ((b % (g2.rows : Int)).toNat) ((a % (g2.columns : Int)).toNat)) acc :=
    fun a b h1 h2 h3 h4 acc => addN_eq g2 acc a b hlen2 hrow2 hr hc h1 h2 h3 h4
  rw [liveNeighbors_fst, liveNeighbors_fst, hcx, hcy]
  rw [E1 (c2.x + 1) (c2.y - 1) (by omega) (by omega) (by omega) (by omega)]
  rw [E1 (c2.x - 1) (c2.y - 1) (by omega) (by omega) (by omega) (by omega)]
  rw [E1 (c2.x + 1) (c2.y + 1) (by omega) (by omega) (by omega) (by omega)]
  rw [E1 (c2.x - 1) (c2.y + 1) (by omega) (by omega) (by omega) (by omega)]
  rw [E1 c2.x (c2.y - 1) (by omega) (by omega) (by omega) (by omega)]
  rw [E1 c2.x (c2.y + 1) (by omega) (by omega) (by omega) (by omega)]
  rw [E1 (c2.x + 1) c2.y (by omega) (by omega) (by omega) (by omega)]
  rw [E1 (c2.x - 1) c2.y (by omega) (by omega) (by omega) (by omega)]
  rw [E2 (c2.x + 1) (c2.y - 1) (by omega) (by omega) (by omega) (by omega)]
  rw [E2 (c2.x - 1) (c2.y - 1) (by omega) (by omega) (by omega) (by omega)]
  rw [E2 (c2.x + 1) (c2.y + 1) (by omega) (by omega) (by omega) (by omega)]
  rw [E2 (c2.x - 1) (c2.y + 1) (by omega) (by omega) (by omega) (by omega)]
  rw [E2 c2.x (c2.y - 1) (by omega) (by omega) (by omega) (by omega)]
  rw [E2 c2.x (c2.y + 1) (by omega) (by omega) (by omega) (by omega)]
  rw [E2 (c2.x + 1) c2.y (by omega) (by omega) (by omega) (by omega)]
  rw [E2 (c2.x - 1) c2.y (by omega) (by omega) (by omega) (by omega)]
  simp only [accStep_fst, halive]

theorem positionsOf_nodup (g : Grid) : (positionsOf g).Nodup := by
  unfold positionsOf
  rw [List.nodup_flatMap]
  constructor
  · intro y hy
    exact (List.nodup_range _).map (fun a b h => by simpa using h)
  · have hp : List.Pairwise (· < ·) (List.range g.cells.length) := List.pairwise_lt_range _
    refine hp.imp ?_
    intro a b hab p hpa hpb
    simp only [List.mem_map, List.mem_range] at hpa hpb
    obtain ⟨x1, -, e1⟩ := hpa
    obtain ⟨x2, -, e2⟩ := hpb
    rw [← e1] at e2
    have hab2 : a = b ∧ x2 = x1 := by
      rw [Prod.mk.injEq] at e2
      exact ⟨e2.1.symm, e2.2⟩
    omega

theorem positionsOf_mem (g : Grid) (y x : Nat) (hy : y < g.cells.length)
    (hx : x < (g.cells.getD y []).length) : (y, x) ∈ positionsOf g := by
  unfold positionsOf
  rw [List.mem_flatMap]
  exact ⟨y, List.mem_range.2 hy, List.mem_map.2 ⟨x, List.mem_range.2 hx, rfl⟩⟩

/-- C1 (amended, positive part): the next-alive state `aliveNext` that the
sequential, in-place `NextFrame` pass assigns to each cell is exactly the
rule applied to the live-neighbor count taken from the grid as it was at
the start of the tick — the pass never changes any `alive` field, and the
count reads only `alive` fields, so the in-place updates cannot leak into
any cell's next-state decision.  (The age updates are *not* deferred this
way; see the counterexample.) -/
theorem C1_next_alive_from_start_state (g : Grid) (hWF : WF g) (y x : Nat)
    (hy : y < g.rows) (hx : x < g.columns) :
    (cellAt (nextFramePass g) y x).aliveNext = specNextAlive g y x := by
  obtain ⟨hlen, hr, hc, hrowm, hxy⟩ := hWF
  have hrow : ∀ i, i < g.rows → (g.cells.getD i []).length = g.columns :=
    fun i hi => WF_rowlen ⟨hlen, hr, hc, hrowm, hxy⟩ hi
  have hylen : y < g.cells.length := by omega
  have hxlen : x < (g.cells.getD y []).length := by
    rw [hrow y hy]
    exact hx
  have hmem : (y, x) ∈ positionsOf g := positionsOf_mem g y x hylen hxlen
  obtain ⟨l1, l2, hsplit⟩ := List.append_of_mem hmem
  have hnd : (positionsOf g).Nodup := positionsOf_nodup g
  rw [hsplit] at hnd
  have hnotin : (y, x) ∉ l2 := (List.nodup_cons.1 hnd.of_append_right).1
  unfold nextFramePass
  rw [hsplit, List.foldl_append, List.foldl_cons]
  obtain ⟨i1, i2, i3, i4, i5, i6, i7⟩ := foldl_check_invariant l1 g
  set g1 := List.foldl checkStateAt g l1 with hg1
  rw [foldl_check_untouched l2 _ (y, x) hnotin]
  have hcell : cellAt (checkStateAt g1 (y, x)) y x = checkState g1 (cellAt g1 y x) :=
    cellAt_checkStateAt_self g1 y x (by rw [i5]; exact hylen) (by rw [i6]; exact hxlen)
  rw [hcell]
  obtain ⟨ha, hxf, hyf⟩ := i7 y x
  obtain ⟨hcx2, hcy2⟩ := hxy y hy x hx
  have hcnt : (liveNeighbors g1 (cellAt g1 y x)).1 = (liveNeighbors g (cellAt g y x)).1 := by
    refine liveNeighbors_fst_eq g1 g (cellAt g1 y x) (cellAt g y x) i1 i2
      (by rw [i5, i1]; exact hlen) hlen
      (fun i hi => by rw [i6 i, i2]; exact hrow i (by rw [← i1]; exact hi)) hrow hr hc
      (fun i j => (i7 i j).1) hxf hyf ?_ ?_ ?_ ?_
    · rw [hcx2]
      omega
    · rw [hcx2]
      exact_mod_cast hx
    · rw [hcy2]
      omega
    · rw [hcy2]
      exact_mod_cast hy
  unfold checkState specNextAlive
  by_cases hal : (cellAt g y x).alive
  · simp only [ha, hal, if_pos, i4, hcnt]
  · simp only [ha, hal, i3, hcnt]
    simp

/-- C1 witness: the start-of-tick theorem applied to a concrete grid. -/
theorem C1_next_alive_from_start_state_witness :
    WF (mkGrid 4 4 [(1, 1, 3), (2, 1, 3), (1, 2, 3)]) ∧
    (cellAt (nextFramePass (mkGrid 4 4 [(1, 1, 3), (2, 1, 3), (1, 2, 3)])) 2 2).aliveNext =
      specNextAlive (mkGrid 4 4 [(1, 1, 3), (2, 1, 3), (1, 2, 3)]) 2 2 :=
  ⟨by decide, C1_next_alive_from_start_state (mkGrid 4 4 [(1, 1, 3), (2, 1, 3), (1, 2, 3)])
    (by decide) 2 2 (by decide) (by decide)⟩

/-- C1 counterexample: ages are *not* advanced only after all next-states
are computed.  On a 4×4 grid (rule B3/S23) with three live age-3 cells at
(1,1), (2,1), (1,2), the cell at (2,2) is born last in row-major order;
the code seeds it with the *already incremented* ages of its parents
(average 4, final age 5), while the spec's simultaneous tick seeds it with
their start-of-tick ages (average 3, final age 4). -/
theorem C1_inline_age_counterexample :
    (cellAt (nextFramePass (mkGrid 4 4 [(1, 1, 3), (2, 1, 3), (1, 2, 3)])) 2 2).age = 5 ∧
    (cellAt (tickSimultaneousSpec (mkGrid 4 4 [(1, 1, 3), (2, 1, 3), (1, 2, 3)])) 2 2).age = 4 := by
  constructor <;> decide

/-! ## C2 / C8: rule string parsing -/

theorem digitSetCore_fuel (v : Nat) : ∀ f1 f2, v ≤ f1 → v ≤ f2 →
    digitSetCore f1 v = digitSetCore f2 v := by
  induction v using Nat.strong_induction_on with
  | _ v ih =>
    intro f1 f2 hf1 hf2
    rcases v with _ | w
    · rcases f1 with _ | a <;> rcases f2 with _ | b <;> rfl
    · rcases f1 with _ | a
      · omega
      · rcases f2 with _ | b
        · omega
        · simp only [digitSetCore]
          exact congrArg _ (ih _ (Nat.div_lt_self (Nat.succ_pos w) (by omega)) _ _
            (by omega) (by omega))

theorem natDigitsLoop_tenfold (a b : Nat) (hb : b < 10) (hpos : 0 < 10 * a + b) :
    natDigitsLoop (10 * a + b) = insert b (natDigitsLoop a) := by
  unfold natDigitsLoop
  obtain ⟨m, hm⟩ : ∃ m, 10 * a + b = m + 1 := ⟨10 * a + b - 1, by omega⟩
  rw [hm]
  simp only [digitSetCore]
  have e1 : (m + 1) % 10 = b := by omega
  have e2 : (m + 1) / 10 = a := by omega
  rw [e1, e2, digitSetCore_fuel a m a (by omega) (le_refl a)]

theorem strVal_append (s : List Char) (c : Char) :
    strVal (s ++ [c]) = 10 * strVal s + charToDigit c := by
  unfold strVal
  rw [List.foldl_append]
  rfl

theorem charToDigit_lt (c : Char) (h : isDigitChar c = true) : charToDigit c < 10 := by
  unfold isDigitChar at h
  simp only [Bool.and_eq_true, decide_eq_true_eq] at h
  unfold charToDigit
  omega

theorem charToDigit_ne_zero (c : Char) (hd : isDigitChar c = true) (h0 : c ≠ '0') :
    charToDigit c ≠ 0 := by
  unfold isDigitChar at hd
  simp only [Bool.and_eq_true, decide_eq_true_eq] at hd
  unfold charToDigit
  intro he
  have : c.toNat = 48 := by omega
  exact h0 (Char.ext (UInt32.ext this))

theorem mem_natDigitsLoop_strVal (s : List Char) (hall : ∀ c ∈ s, isDigitChar c = true) :
    ∀ c ∈ s, charToDigit c ≠ 0 → charToDigit c ∈ natDigitsLoop (strVal s) := by
  induction s using List.reverseRecOn with
  | nil => intro c hc; cases hc
  | append_singleton s d ih =>
    intro c hc hne
    rw [strVal_append]
    have hd10 : charToDigit d < 10 := charToDigit_lt d (hall d (by simp))
    rcases List.mem_append.1 hc with hcs | hcd
    · have hmem := ih (fun e he => hall e (List.mem_append_left _ he)) c hcs hne
      have ha : 0 < strVal s := by
        by_contra h0
        have hz : strVal s = 0 := by omega
        rw [hz] at hmem
        exact absurd hmem (by simp [natDigitsLoop, digitSetCore])
      rw [natDigitsLoop_tenfold _ _ hd10 (by omega)]
      exact Finset.mem_insert_of_mem hmem
    · have hcd2 : c = d := by simpa using hcd
      subst hcd2
      rw [natDigitsLoop_tenfold _ _ hd10 (by omega)]
      exact Finset.mem_insert_self _ _

theorem isPrefixOf_append_self (l t : List Char) : l.isPrefixOf (l ++ t) = true := by
  induction l with
  | nil => simp [List.isPrefixOf]
  | cons a l ih => simp [List.isPrefixOf, ih]

theorem containsSeq_of_isPrefixOf (pat l : List Char) (h : pat.isPrefixOf l = true) :
    containsSeq pat l = true := by
  cases l with
  | nil => simpa [containsSeq] using h
  | cons c rest => simp [containsSeq, h]

theorem containsSeq_cons_of (pat : List Char) (c : Char) (rest : List Char)
    (h : containsSeq pat rest = true) : containsSeq pat (c :: rest) = true := by
  simp [containsSeq, h]

theorem containsSeq_append (pat a b : List Char) : containsSeq pat (a ++ (pat ++ b)) = true := by
  induction a with
  | nil => exact containsSeq_of_isPrefixOf _ _ (isPrefixOf_append_self _ _)
  | cons c rest ih => exact containsSeq_cons_of _ _ _ ih

theorem splitOnChar_sepFree (sep : Char) (l : List Char) (h : sep ∉ l) :
    splitOnChar sep l = [l] := by
  induction l with
  | nil => rfl
  | cons c rest ih =>
    have hc : ¬(c = sep) := fun e => h (e ▸ List.mem_cons_self c rest)
    simp only [splitOnChar, if_neg hc]
    rw [ih (fun hm => h (List.mem_cons_of_mem _ hm))]

theorem splitOnChar_append_sep (sep : Char) (a b : List Char) (h : sep ∉ a) :
    splitOnChar sep (a ++ sep :: b) = a :: splitOnChar sep b := by
  induction a with
  | nil => simp [splitOnChar]
  | cons c rest ih =>
    have hc : ¬(c = sep) := fun e => h (e ▸ List.mem_cons_self c rest)
    simp only [List.cons_append, splitOnChar, if_neg hc, List.append_eq]
    rw [ih (fun hm => h (List.mem_cons_of_mem _ hm))]

theorem trimPfx_cons (p : Char) (l : List Char) : trimPfx [p] (p :: l) = l := by
  simp [trimPfx, List.isPrefixOf]

theorem goAtoi_digits (d : List Char) (hne : d ≠ []) (hall : ∀ c ∈ d, isDigitChar c = true) :
    goAtoi d = some ((strVal d : Int)) := by
  match d, hne with
  | c :: rest, _ =>
    have hc := hall c (List.mem_cons_self ..)
    have h1 : ¬(c = '-') := by intro e; rw [e] at hc; exact absurd hc (by decide)
    have h2 : ¬(c = '+') := by intro e; rw [e] at hc; exact absurd hc (by decide)
    have hds : (c :: rest).all isDigitChar = true := List.all_eq_true.2 hall
    simp [goAtoi, h1, h2, hds]

theorem ruleMapOf_natCast (k : Nat) : ruleMapOf (k : Int) = natDigitsLoop k := by
  unfold ruleMapOf
  rcases Nat.eq_zero_or_pos k with rfl | h
  · simp [natDigitsLoop, digitSetCore]
  · rw [if_pos (by exact_mod_cast h)]
    rw [Int.toNat_natCast]

theorem parseDigits_digits (d : List Char) (hne : d ≠ []) (hlen : d.length ≤ 10)
    (hall : ∀ c ∈ d, isDigitChar c = true) :
    parseDigits d = some (natDigitsLoop (strVal d)) := by
  unfold parseDigits
  rw [goAtoi_digits d hne hall]
  simp [hlen, ruleMapOf_natCast]

theorem parseDigits_long (d : List Char) (h : 10 < d.length) : parseDigits d = none := by
  unfold parseDigits
  cases hA : goAtoi d
  · simp
  · simp [Nat.not_le.2 h]

/-- C2 (amended): for every rule string `B<d1>/S<d2>` with non-empty groups
of at most 10 digit characters, `ParseRulestring` succeeds and returns
birth/stayAlive equal to the sets of decimal digits of the *numeric values*
of the groups (so order and duplicates are irrelevant, and
`B33/S23 ≡ B3/S23`); every nonzero digit occurring in a group is a member
of the resulting set.  (A `'0'` in a leading position is dropped with the
leading zeros of the value and need not be a member; see the
counterexample.) -/
theorem C2_rulestring_digit_sets (d1 d2 : List Char)
    (h1 : d1 ≠ []) (h2 : d2 ≠ []) (hl1 : d1.length ≤ 10) (hl2 : d2.length ≤ 10)
    (ha1 : ∀ c ∈ d1, isDigitChar c = true) (ha2 : ∀ c ∈ d2, isDigitChar c = true) :
    ParseRulestring ('B' :: d1 ++ '/' :: 'S' :: d2) =
      ⟨some (natDigitsLoop (strVal d1)), some (natDigitsLoop (strVal d2)), false⟩ ∧
    (∀ c ∈ d1, c ≠ '0' → charToDigit c ∈ natDigitsLoop (strVal d1)) ∧
    (∀ c ∈ d2, c ≠ '0' → charToDigit c ∈ natDigitsLoop (strVal d2)) ∧
    ParseRulestring "B33/S23".toList = ParseRulestring "B3/S23".toList := by
  have hdig_ne_slash : ∀ c, isDigitChar c = true → ¬(c = '/') := by
    intro c hcd e
    rw [e] at hcd
    exact absurd hcd (by decide)
  refine ⟨?_, ?_, ?_, by rfl⟩
  · have hpre : (['B'].isPrefixOf ('B' :: d1 ++ '/' :: 'S' :: d2)) = true := by
      simp [List.isPrefixOf]
    have hcont : containsSeq ['/', 'S'] ('B' :: d1 ++ '/' :: 'S' :: d2) = true := by
      have e : 'B' :: d1 ++ '/' :: 'S' :: d2 = ('B' :: d1) ++ (['/', 'S'] ++ d2) := by simp
      rw [e]
      exact containsSeq_append _ _ _
    have hsl1 : '/' ∉ 'B' :: d1 := by
      intro hm
      rcases List.mem_cons.1 hm with e | hmem
      · exact absurd e (by decide)
      · exact hdig_ne_slash '/' (ha1 _ hmem) rfl
    have hsl2 : '/' ∉ 'S' :: d2 := by
      intro hm
      rcases List.mem_cons.1 hm with e | hmem
      · exact absurd e (by decide)
      · exact hdig_ne_slash '/' (ha2 _ hmem) rfl
    have hsplit : splitOnChar '/' ('B' :: d1 ++ '/' :: 'S' :: d2) =
        ('B' :: d1) :: [('S' :: d2)] := by
      have e : 'B' :: d1 ++ '/' :: 'S' :: d2 = ('B' :: d1) ++ '/' :: ('S' :: d2) := by simp
      rw [e, splitOnChar_append_sep '/' _ _ hsl1, splitOnChar_sepFree '/' _ hsl2]
    have hp1 : parseDigits d1 = some (natDigitsLoop (strVal d1)) :=
      parseDigits_digits d1 h1 hl1 ha1
    have hp2 : parseDigits d2 = some (natDigitsLoop (strVal d2)) :=
      parseDigits_digits d2 h2 hl2 ha2
    unfold ParseRulestring
    simp only [hpre, hcont, Bool.not_true, Bool.or_self, if_false, hsplit,
      trimPfx_cons, hp1, hp2, Option.isNone_some, Bool.or_self]
    rfl
  · exact fun c hc h0 =>
      mem_natDigitsLoop_strVal d1 ha1 c hc (charToDigit_ne_zero c (ha1 c hc) h0)
  · exact fun c hc h0 =>
      mem_natDigitsLoop_strVal d2 ha2 c hc (charToDigit_ne_zero c (ha2 c hc) h0)

/-- C2 witness: the digit-set theorem applied to the standard rule
`B3/S23`. -/
theorem C2_rulestring_digit_sets_witness :
    ParseRulestring ('B' :: "3".toList ++ '/' :: 'S' :: "23".toList) =
      ⟨some (natDigitsLoop (strVal "3".toList)), some (natDigitsLoop (strVal "23".toList)),
        false⟩ ∧
    (∀ c ∈ "3".toList, c ≠ '0' → charToDigit c ∈ natDigitsLoop (strVal "3".toList)) ∧
    (∀ c ∈ "23".toList, c ≠ '0' → charToDigit c ∈ natDigitsLoop (strVal "23".toList)) ∧
    ParseRulestring "B33/S23".toList = ParseRulestring "B3/S23".toList :=
  C2_rulestring_digit_sets "3".toList "23".toList (by decide) (by decide) (by decide)
    (by decide) (by decide) (by decide)

/-- C2 counterexample: the claim says a digit `d` occurring anywhere in a
group — including the digit 0 — is a member of the resulting set, but
`parseDigits` extracts digits from the `Atoi` *value*, so the leading zero
of `B03/S23` is dropped: parsing succeeds with birth set `{3}`, and `0` is
not a member although `'0'` occurs in the birth group. -/
theorem C2_leading_zero_counterexample :
    (ParseRulestring "B03/S23".toList).err = false ∧
    (ParseRulestring "B03/S23".toList).birth.isSome = true ∧
    (3 : Nat) ∈ ((ParseRulestring "B03/S23".toList).birth.getD ∅) ∧
    (0 : Nat) ∉ ((ParseRulestring "B03/S23".toList).birth.getD ∅) := by decide

theorem parseDigits_atoi_none (d : List Char) (h : goAtoi d = none) : parseDigits d = none := by
  unfold parseDigits
  rw [h]

theorem parseRulestring_cases (rule : List Char) :
    ParseRulestring rule = ⟨none, none, true⟩ ∨ (ParseRulestring rule).err = false := by
  simp only [ParseRulestring]
  split
  · exact Or.inl rfl
  · split
    · split
      · exact Or.inl rfl
      · exact Or.inr rfl
    · exact Or.inl rfl

/-- C8: `ParseRulestring` fails on a missing `B` prefix, a missing `/S`
separator, a group `Atoi` cannot parse, or a group longer than 10
characters — in particular on `A3/S23`, `B3S23` and `B99999999999/S23` —
and every failure returns `nil` for both the birth and stayAlive sets. -/
theorem C8_rulestring_failures :
    ParseRulestring "A3/S23".toList = ⟨none, none, true⟩ ∧
    ParseRulestring "B3S23".toList = ⟨none, none, true⟩ ∧
    ParseRulestring "B99999999999/S23".toList = ⟨none, none, true⟩ ∧
    (∀ rule : List Char, (['B'].isPrefixOf rule) = false →
      ParseRulestring rule = ⟨none, none, true⟩) ∧
    (∀ rule : List Char, containsSeq ['/', 'S'] rule = false →
      ParseRulestring rule = ⟨none, none, true⟩) ∧
    (∀ d1 d2 : List Char, '/' ∉ d1 → '/' ∉ d2 →
      (goAtoi d1 = none ∨ 10 < d1.length ∨ goAtoi d2 = none ∨ 10 < d2.length) →
      ParseRulestring ('B' :: d1 ++ '/' :: 'S' :: d2) = ⟨none, none, true⟩) ∧
    (∀ rule : List Char, (ParseRulestring rule).err = true →
      (ParseRulestring rule).birth = none ∧ (ParseRulestring rule).stayAlive = none) := by
  refine ⟨by decide, by decide, by decide, ?_, ?_, ?_, ?_⟩
  · intro rule h
    simp [ParseRulestring, h]
  · intro rule h
    simp [ParseRulestring, h]
  · intro d1 d2 hs1 hs2 hbad
    have hpre : (['B'].isPrefixOf ('B' :: d1 ++ '/' :: 'S' :: d2)) = true := by
      simp [List.isPrefixOf]
    have hcont : containsSeq ['/', 'S'] ('B' :: d1 ++ '/' :: 'S' :: d2) = true := by
      have e : 'B' :: d1 ++ '/' :: 'S' :: d2 = ('B' :: d1) ++ (['/', 'S'] ++ d2) := by simp
      rw [e]
      exact containsSeq_append _ _ _
    have hsl1 : '/' ∉ 'B' :: d1 := by
      intro hm
      rcases List.mem_cons.1 hm with e | hmem
      · exact absurd e (by decide)
      · exact hs1 hmem
    have hsl2 : '/' ∉ 'S' :: d2 := by
      intro hm
      rcases List.mem_cons.1 hm with e | hmem
      · exact absurd e (by decide)
      · exact hs2 hmem
    have hsplit : splitOnChar '/' ('B' :: d1 ++ '/' :: 'S' :: d2) =
        ('B' :: d1) :: [('S' :: d2)] := by
      have e : 'B' :: d1 ++ '/' :: 'S' :: d2 = ('B' :: d1) ++ '/' :: ('S' :: d2) := by simp
      rw [e, splitOnChar_append_sep '/' _ _ hsl1, splitOnChar_sepFree '/' _ hsl2]
    have hnone : parseDigits d1 = none ∨ parseDigits d2 = none := by
      rcases hbad with h | h | h | h
      · exact Or.inl (parseDigits_atoi_none d1 h)
      · exact Or.inl (parseDigits_long d1 h)
      · exact Or.inr (parseDigits_atoi_none d2 h)
      · exact Or.inr (parseDigits_long d2 h)
    unfold ParseRulestring
    simp only [hpre, hcont, Bool.not_true, Bool.or_self, if_false, hsplit, trimPfx_cons]
    rcases hnone with h | h <;> simp [h]
  · intro rule h
    rcases parseRulestring_cases rule with he | he
    · rw [he]
      exact ⟨rfl, rfl⟩
    · rw [he] at h
      cases h

/-- C8 witness: the failure theorem applied to a rule whose birth group is
non-numeric. -/
theorem C8_rulestring_failures_witness :
    ('/' ∉ "xx".toList) ∧ ('/' ∉ "23".toList) ∧ goAtoi "xx".toList = none ∧
    ParseRulestring ('B' :: "xx".toList ++ '/' :: 'S' :: "23".toList) = ⟨none, none, true⟩ :=
  ⟨by decide, by decide, by decide,
    C8_rulestring_failures.2.2.2.2.2.1 "xx".toList "23".toList (by decide) (by decide)
      (Or.inl (by decide))⟩

/-! ## C5: gradient builder error handling -/

/-- C5 (amended): `NewLinearGradient` errors exactly when given no colors
and `NewPolylinearGradient` exactly when given fewer than two, returning no
gradient alongside the error (the Go functions return the zero `Gradient{}`
there); `NewBezierGradient` has *no* error path — for every input,
including zero control colors, it returns a table of exactly `maxAge`
entries.  (The model is pure, so no builder can mutate its input color
sequence; the Go originals only read theirs.) -/
theorem C5_gradient_error_handling (colors : List RGBAColor) (maxAge : Nat) :
    (colors.length = 0 → NewLinearGradient colors maxAge =
      .error "Linear Gradient requires at least 1 color") ∧
    (1 ≤ colors.length → (NewLinearGradient colors maxAge).isOk = true) ∧
    (colors.length < 2 → NewPolylinearGradient colors maxAge =
      .error "Polylinear Gradient requires at least 2 colors") ∧
    (2 ≤ colors.length → (NewPolylinearGradient colors maxAge).isOk = true) ∧
    (NewBezierGradient colors maxAge).points.length = maxAge := by
  refine ⟨?_, ?_, ?_, ?_, ?_⟩
  · intro h
    simp [NewLinearGradient, h]
  · intro h
    unfold NewLinearGradient
    rw [if_neg (by omega)]
    rfl
  · intro h
    simp [NewPolylinearGradient, h]
  · intro h
    unfold NewPolylinearGradient
    rw [if_neg (by omega)]
    split <;> rfl
  · simp [NewBezierGradient]

/-- C5 witness: the error-handling theorem at zero colors and at two
colors. -/
theorem C5_gradient_error_handling_witness :
    NewLinearGradient ([] : List RGBAColor) 5 =
      .error "Linear Gradient requires at least 1 color" ∧
    (NewBezierGradient ([] : List RGBAColor) 5).points.length = 5 ∧
    (NewPolylinearGradient [⟨0, 0, 0, 255⟩, ⟨255, 255, 255, 255⟩] 5).isOk = true :=
  ⟨(C5_gradient_error_handling [] 5).1 rfl,
   (C5_gradient_error_handling [] 5).2.2.2.2,
   (C5_gradient_error_handling [⟨0, 0, 0, 255⟩, ⟨255, 255, 255, 255⟩] 5).2.2.2.1 (by decide)⟩

/-- C5 counterexample: the claim says `NewBezierGradient` fails with an
`InsufficientControlColors` error below its minimum color count, but the
Go function has no error return at all: with zero control colors it
happily returns a gradient (all entries opaque black). -/
theorem C5_bezier_no_error_counterexample :
    NewBezierGradient [] 3 =
      ⟨[], [⟨0, 0, 0, 255⟩, ⟨0, 0, 0, 255⟩, ⟨0, 0, 0, 255⟩]⟩ := by decide

/-! ## C6: polylinear gradient layout -/

theorem appendPoints_length (src : List RGBAColor) :
    ∀ dst start, (appendPoints dst src start).length = dst.length := by
  induction src with
  | nil => intro dst start; rfl
  | cons p rest ih =>
    intro dst start
    simp only [appendPoints]
    rw [ih, List.length_set]

theorem appendPoints_getD (src : List RGBAColor) :
    ∀ dst start j, (appendPoints dst src start).getD j zeroColor =
      if start ≤ j ∧ j < start + src.length ∧ j < dst.length then
        src.getD (j - start) zeroColor
      else dst.getD j zeroColor := by
  induction src with
  | nil =>
    intro dst start j
    simp only [List.length_nil, Nat.add_zero]
    rw [if_neg (by omega)]
    rfl
  | cons p rest ih =>
    intro dst start j
    simp only [appendPoints, List.length_cons]
    rw [ih, List.length_set, getD_set_split]
    by_cases h1 : start + 1 ≤ j ∧ j < start + 1 + rest.length ∧ j < dst.length
    · rw [if_pos h1, if_pos (by omega)]
      have e : j - start = (j - (start + 1)) + 1 := by omega
      rw [e, List.getD_cons_succ]
    · rw [if_neg h1]
      by_cases h2 : start = j ∧ start < dst.length
      · rw [if_pos h2, if_pos (by omega)]
        have e : j - start = 0 := by omega
        rw [e, List.getD_cons_zero]
      · rw [if_neg h2, if_neg (by omega)]

theorem linearPoints_length (s e : RGBAColor) (n : Nat) : (linearPoints s e n).length = n := by
  simp [linearPoints]

theorem linearPoints_getD (s e : RGBAColor) (n j : Nat) (h : j < n) :
    (linearPoints s e n).getD j zeroColor = lerpColor s e j n := by
  simp [linearPoints, List.getD_eq_getElem?_getD, List.getElem?_map, List.getElem?_range h]

theorem ratToUint8_natCast (k : Nat) : ratToUint8 ((k : ℚ)) = k := by
  unfold ratToUint8
  have h : ((k : ℚ)).floor = ⌊((k : ℚ))⌋ := rfl
  rw [h, Int.floor_natCast, Int.toNat_natCast]

theorem lerpColor_self (c : RGBAColor) (t n : Nat) : lerpColor c c t n = constColor c := by
  unfold lerpColor constColor chanLerp
  simp only [sub_self, mul_zero, add_zero, ratToUint8_natCast]

theorem okPoints_linear (colors : List RGBAColor) (n : Nat) (h : 1 ≤ colors.length) :
    okPoints (NewLinearGradient colors n) =
      linearPoints (colors.headD zeroColor) (colors.getLastD zeroColor) n := by
  unfold NewLinearGradient okPoints
  rw [if_neg (by omega)]

theorem drop_take_one (colors : List RGBAColor) (i : Nat) (h : i < colors.length) :
    (colors.drop i).take 1 = [colors.getD i zeroColor] := by
  rw [List.drop_eq_getElem_cons h, List.take_succ_cons, List.take_zero,
    List.getD_eq_getElem?_getD, List.getElem?_eq_getElem h]
  rfl

theorem okPoints_slice (colors : List RGBAColor) (i L : Nat) (h : i < colors.length) :
    okPoints (NewLinearGradient ((colors.drop i).take 1) L) =
      linearPoints (colors.getD i zeroColor) (colors.getD i zeroColor) L := by
  rw [drop_take_one colors i h, okPoints_linear _ _ (by simp)]
  rfl

theorem polyBase_length (colors : List RGBAColor) (maxAge : Nat) :
    (polyBase colors maxAge).length = maxAge := by
  unfold polyBase
  rw [appendPoints_length, List.length_replicate]

theorem polyStep_length (colors : List RGBAColor) (maxAge : Nat) (pts : List RGBAColor)
    (i : Nat) : (polyStep colors maxAge pts i).length = pts.length := by
  unfold polyStep
  split <;> rw [appendPoints_length]

theorem foldl_polyStep_length (colors : List RGBAColor) (maxAge : Nat) (l : List Nat) :
    ∀ pts, ((l.foldl (polyStep colors maxAge) pts).length = pts.length) := by
  induction l with
  | nil => intro pts; rfl
  | cons i l ih =>
    intro pts
    rw [List.foldl_cons, ih, polyStep_length]

theorem polyBase_getD (colors : List RGBAColor) (maxAge : Nat) (h1 : 1 ≤ colors.length)
    (j : Nat) (hj : j < maxAge) :
    (polyBase colors maxAge).getD j zeroColor =
      if j < polySegN colors maxAge then
        lerpColor (colors.headD zeroColor) (colors.getLastD zeroColor) j
          (polySegN colors maxAge)
      else zeroColor := by
  unfold polyBase
  rw [okPoints_linear _ _ h1, appendPoints_getD, List.length_replicate, linearPoints_length]
  by_cases h : j < polySegN colors maxAge
  · rw [if_pos (by omega), Nat.sub_zero, if_pos h, linearPoints_getD _ _ _ _ h]
  · rw [if_neg (by omega), if_neg h]
    rw [List.getD_eq_getElem?_getD, List.getElem?_replicate]
    split <;> rfl

theorem polyStep_ne (colors : List RGBAColor) (maxAge : Nat) (pts : List RGBAColor) (i : Nat)
    (h : ¬(i = colors.length - 2)) :
    polyStep colors maxAge pts i =
      appendPoints pts (okPoints (NewLinearGradient ((colors.drop i).take 1)
        (polySegN colors maxAge))) (i * polySegN colors maxAge) := by
  unfold polyStep
  rw [if_neg h]

theorem polyStep_last (colors : List RGBAColor) (maxAge : Nat) (pts : List RGBAColor) :
    polyStep colors maxAge pts (colors.length - 2) =
      appendPoints pts (okPoints (NewLinearGradient ((colors.drop (colors.length - 2)).take 1)
        (polySegN colors maxAge +
          (maxAge - (colors.length - 2 + 1) * polySegN colors maxAge))))
      ((colors.length - 2) * polySegN colors maxAge) := by
  unfold polyStep
  rw [if_pos rfl]

theorem polyFold_inv (colors : List RGBAColor) (maxAge : Nat) (h3 : 3 ≤ colors.length) :
    ∀ m, m + 3 ≤ colors.length → ∀ j, j < maxAge →
      ((List.range' 1 m).foldl (polyStep colors maxAge) (polyBase colors maxAge)).getD j
          zeroColor =
        (if j < polySegN colors maxAge then
          lerpColor (colors.headD zeroColor) (colors.getLastD zeroColor) j
            (polySegN colors maxAge)
        else if j < (m + 1) * polySegN colors maxAge then
          constColor (colors.getD (j / polySegN colors maxAge) zeroColor)
        else zeroColor) := by
  intro m
  induction m with
  | zero =>
    intro hm j hj
    rw [show List.range' 1 0 = [] from rfl, List.foldl_nil,
      polyBase_getD colors maxAge (by omega) j hj]
    by_cases h : j < polySegN colors maxAge
    · rw [if_pos h, if_pos h]
    · rw [if_neg h, if_neg h, if_neg (by omega)]
  | succ m ih =>
    intro hm j hj
    rw [List.range'_concat, List.foldl_append, List.foldl_cons, List.foldl_nil]
    have hel : 1 + 1 * m = m + 1 := by omega
    rw [hel, polyStep_ne _ _ _ _ (by omega), okPoints_slice colors (m + 1) _ (by omega)]
    rw [appendPoints_getD, linearPoints_length, foldl_polyStep_length, polyBase_length]
    have hmid := ih (by omega) j hj
    set n := polySegN colors maxAge with hn
    have haux : n ≤ (m + 1) * n := by
      have e2 : (m + 1) * n = m * n + n := Nat.succ_mul m n
      omega
    by_cases hwin : (m + 1) * n ≤ j ∧ j < (m + 1) * n + n ∧ j < maxAge
    · rw [if_pos hwin, linearPoints_getD _ _ _ _ (by omega), lerpColor_self]
      have hn0 : 0 < n := by omega
      have hdiv : j / n = m + 1 := by
        refine Nat.div_eq_of_lt_le (by exact hwin.1) ?_
        rw [Nat.succ_mul]
        omega
      rw [if_neg (by omega), if_pos (by rw [Nat.succ_mul]; omega), hdiv]
    · rw [if_neg hwin, hmid]
      by_cases h1 : j < n
      · rw [if_pos h1, if_pos h1]
      · rw [if_neg h1, if_neg h1]
        by_cases h2 : j < (m + 1) * n
        · rw [if_pos h2, if_pos (by rw [Nat.succ_mul]; omega)]
        · rw [if_neg h2, if_neg (by rw [Nat.succ_mul]; omega)]

/-- C6 (amended): `NewPolylinearGradient` on `len ≥ 2` colors returns a
table of exactly `maxAge` entries, split at multiples of
`n = floor(maxAge/(len-1))` with the last block absorbing the remainder —
but the *contents* are not consecutive-color segments: the first block is
the linear gradient from the first to the *last* control color (for
`len = 2` that single block is the whole table and is the expected
gradient), and every later block `i` is constant at control color `i`
(the loop interpolates the one-element slice `colors[i:i+1]`). -/
theorem C6_polylinear_layout (colors : List RGBAColor) (maxAge : Nat)
    (h2 : 2 ≤ colors.length) :
    ∃ pts, NewPolylinearGradient colors maxAge = .ok ⟨colors, pts⟩ ∧
      pts.length = maxAge ∧
      ∀ t, t < maxAge → pts.getD t zeroColor = polyVal colors maxAge t := by
  rcases eq_or_ne colors.length 2 with hl2 | hl2
  · refine ⟨polyBase colors maxAge, ?_, polyBase_length colors maxAge, ?_⟩
    · unfold NewPolylinearGradient
      rw [if_neg (by omega), if_pos hl2]
    · intro t ht
      rw [polyBase_getD colors maxAge (by omega) t ht]
      unfold polyVal
      have hn : polySegN colors maxAge = maxAge := by
        unfold polySegN
        rw [hl2]
        omega
      rw [hn, if_pos ht, if_pos ht]
  · have h3 : 3 ≤ colors.length := by omega
    refine ⟨(List.range' 1 (colors.length - 2)).foldl (polyStep colors maxAge)
      (polyBase colors maxAge), ?_, ?_, ?_⟩
    · unfold NewPolylinearGradient
      rw [if_neg (by omega), if_neg hl2]
    · rw [foldl_polyStep_length, polyBase_length]
    · intro t ht
      have hsplitr : List.range' 1 (colors.length - 2) =
          List.range' 1 (colors.length - 3) ++ [1 + 1 * (colors.length - 3)] := by
        have e : colors.length - 2 = (colors.length - 3) + 1 := by omega
        rw [e, List.range'_concat]
      rw [hsplitr, List.foldl_append, List.foldl_cons, List.foldl_nil]
      have hel : 1 + 1 * (colors.length - 3) = colors.length - 2 := by omega
      rw [hel, polyStep_last, okPoints_slice colors _ _ (by omega)]
      rw [appendPoints_getD, linearPoints_length, foldl_polyStep_length, polyBase_length]
      have hmid := polyFold_inv colors maxAge h3 (colors.length - 3) (by omega) t ht
      set n := polySegN colors maxAge with hn
      have hnk : (colors.length - 2 + 1) * n ≤ maxAge := by
        have e : colors.length - 2 + 1 = colors.length - 1 := by omega
        rw [e, hn]
        unfold polySegN
        exact le_trans (le_of_eq (Nat.mul_comm _ _))
          (Nat.div_mul_le_self maxAge (colors.length - 1))
      have hsm : (colors.length - 2 + 1) * n = (colors.length - 2) * n + n := Nat.succ_mul _ _
      have haux : n ≤ (colors.length - 2) * n := by
        have e2 : (colors.length - 2) * n = (colors.length - 3) * n + n :=
          Nat.succ_mul (colors.length - 3) n ▸ (by
            have e3 : colors.length - 2 = colors.length - 3 + 1 := by omega
            rw [e3, Nat.succ_mul])
        omega
      by_cases hwin : (colors.length - 2) * n ≤ t ∧
          t < (colors.length - 2) * n + (n + (maxAge - (colors.length - 2 + 1) * n)) ∧
          t < maxAge
      · rw [if_pos hwin, linearPoints_getD _ _ _ _ (by omega), lerpColor_self]
        unfold polyVal
        rw [← hn, if_neg (by omega)]
        rcases Nat.eq_zero_or_pos n with hn0 | hn0
        · rw [if_pos hn0]
        · rw [if_neg (by omega)]
          have hle : colors.length - 2 ≤ t / n := (Nat.le_div_iff_mul_le hn0).2 hwin.1
          rw [Nat.min_eq_right hle]
      · rw [if_neg hwin, hmid]
        unfold polyVal
        rw [← hn]
        by_cases h1 : t < n
        · rw [if_pos h1, if_pos h1]
        · rw [if_neg h1, if_neg h1]
          have hlt : t < (colors.length - 2) * n := by
            rcases Nat.lt_or_ge t ((colors.length - 2) * n) with hlt | hge
            · exact hlt
            · exact absurd ⟨hge, by omega, ht⟩ hwin
          have e2 : (colors.length - 3 + 1) * n = (colors.length - 2) * n := by
            have e3 : colors.length - 3 + 1 = colors.length - 2 := by omega
            rw [e3]
          rw [e2, if_pos hlt]
          have hn0 : 0 < n := by
            rcases Nat.eq_zero_or_pos n with h0 | h0
            · rw [h0, Nat.mul_zero] at hlt
              omega
            · exact h0
          rw [if_neg (by omega)]
          have hdl : t / n < colors.length - 2 :=
            (Nat.div_lt_iff_lt_mul hn0).2 hlt
          rw [Nat.min_eq_left (Nat.le_of_lt hdl)]

/-- C6 witness: the layout theorem applied to three colors and
`maxAge = 4`. -/
theorem C6_polylinear_layout_witness :
    ∃ pts, NewPolylinearGradient
        [⟨0, 0, 0, 255⟩, ⟨0, 0, 0, 255⟩, ⟨255, 255, 255, 255⟩] 4 =
        .ok ⟨[⟨0, 0, 0, 255⟩, ⟨0, 0, 0, 255⟩, ⟨255, 255, 255, 255⟩], pts⟩ ∧
      pts.length = 4 ∧
      ∀ t, t < 4 → pts.getD t zeroColor =
        polyVal [⟨0, 0, 0, 255⟩, ⟨0, 0, 0, 255⟩, ⟨255, 255, 255, 255⟩] 4 t :=
  C6_polylinear_layout [⟨0, 0, 0, 255⟩, ⟨0, 0, 0, 255⟩, ⟨255, 255, 255, 255⟩] 4 (by decide)

/-- C6 counterexample: with controls `[black, black, white]` and
`maxAge = 4` the claim's consecutive-segment description gives
`[black, black, black, white]` (segment 0 interpolates color 0 → color 1,
i.e. black → black), but the code's first segment interpolates the first
to the *last* color, producing white already at index 1, and its second
segment is constant black: `[black, white, black, black]`. -/
theorem chanLerp_zero (s e n : Nat) : chanLerp s e 0 n = s := by
  unfold chanLerp
  norm_num [ratToUint8_natCast]

theorem chanLerp_one_two (s e : Nat) : chanLerp s e 1 2 = e := by
  unfold chanLerp
  have h : ((s : ℚ) + ((1 : Nat) : ℚ) / (((2 : Nat) : ℚ) - 1) * (((e : Nat) : ℚ) - (s : ℚ)))
      = ((e : Nat) : ℚ) := by
    push_cast
    ring_nf
  rw [h, ratToUint8_natCast]

theorem lerpColor_zero (s e : RGBAColor) (n : Nat) :
    lerpColor s e 0 n = ⟨s.r, s.g, s.b, 255⟩ := by
  unfold lerpColor
  rw [chanLerp_zero, chanLerp_zero, chanLerp_zero]

theorem lerpColor_one_two (s e : RGBAColor) : lerpColor s e 1 2 = ⟨e.r, e.g, e.b, 255⟩ := by
  unfold lerpColor
  rw [chanLerp_one_two, chanLerp_one_two, chanLerp_one_two]

theorem linearPoints_two (s e : RGBAColor) :
    linearPoints s e 2 = [⟨s.r, s.g, s.b, 255⟩, ⟨e.r, e.g, e.b, 255⟩] := by
  unfold linearPoints
  rw [show List.range 2 = [0, 1] from rfl]
  simp only [List.map_cons, List.map_nil]
  rw [lerpColor_zero, lerpColor_one_two]

theorem C6_segment_structure_counterexample :
    (NewPolylinearGradient [⟨0, 0, 0, 255⟩, ⟨0, 0, 0, 255⟩, ⟨255, 255, 255, 255⟩] 4).toOption =
      some ⟨[⟨0, 0, 0, 255⟩, ⟨0, 0, 0, 255⟩, ⟨255, 255, 255, 255⟩],
        [⟨0, 0, 0, 255⟩, ⟨255, 255, 255, 255⟩, ⟨0, 0, 0, 255⟩, ⟨0, 0, 0, 255⟩]⟩ ∧
    polylinearClaimPoints [⟨0, 0, 0, 255⟩, ⟨0, 0, 0, 255⟩, ⟨255, 255, 255, 255⟩] 4 =
      [⟨0, 0, 0, 255⟩, ⟨0, 0, 0, 255⟩, ⟨0, 0, 0, 255⟩, ⟨255, 255, 255, 255⟩] ∧
    ([⟨0, 0, 0, 255⟩, ⟨255, 255, 255, 255⟩, ⟨0, 0, 0, 255⟩, ⟨0, 0, 0, 255⟩] : List RGBAColor) ≠
      [⟨0, 0, 0, 255⟩, ⟨0, 0, 0, 255⟩, ⟨0, 0, 0, 255⟩, ⟨255, 255, 255, 255⟩] := by
  refine ⟨?_, ?_, by decide⟩
  · have hbase : polyBase [⟨0, 0, 0, 255⟩, ⟨0, 0, 0, 255⟩, ⟨255, 255, 255, 255⟩] 4 =
        [⟨0, 0, 0, 255⟩, ⟨255, 255, 255, 255⟩, zeroColor, zeroColor] := by
      unfold polyBase
      rw [okPoints_linear _ _ (by decide),
        show polySegN [⟨0, 0, 0, 255⟩, ⟨0, 0, 0, 255⟩, ⟨255, 255, 255, 255⟩] 4 = 2 from rfl,
        show ([⟨0, 0, 0, 255⟩, ⟨0, 0, 0, 255⟩,
          ⟨255, 255, 255, 255⟩] : List RGBAColor).headD zeroColor = ⟨0, 0, 0, 255⟩ from rfl,
        show ([⟨0, 0, 0, 255⟩, ⟨0, 0, 0, 255⟩,
          ⟨255, 255, 255, 255⟩] : List RGBAColor).getLastD zeroColor =
          ⟨255, 255, 255, 255⟩ from rfl,
        linearPoints_two]
      decide
    unfold NewPolylinearGradient
    rw [if_neg (by decide), if_neg (by decide),
      show List.range' 1 (([⟨0, 0, 0, 255⟩, ⟨0, 0, 0, 255⟩,
        ⟨255, 255, 255, 255⟩] : List RGBAColor).length - 2) = [1] from rfl,
      List.foldl_cons, List.foldl_nil, hbase]
    unfold polyStep
    rw [if_pos (by decide), okPoints_slice _ 1 _ (by decide),
      show ([⟨0, 0, 0, 255⟩, ⟨0, 0, 0, 255⟩,
        ⟨255, 255, 255, 255⟩] : List RGBAColor).getD 1 zeroColor = ⟨0, 0, 0, 255⟩ from rfl,
      show polySegN [⟨0, 0, 0, 255⟩, ⟨0, 0, 0, 255⟩, ⟨255, 255, 255, 255⟩] 4 +
        (4 - (1 + 1) * polySegN [⟨0, 0, 0, 255⟩, ⟨0, 0, 0, 255⟩,
          ⟨255, 255, 255, 255⟩] 4) = 2 from rfl,
      linearPoints_two]
    decide
  · simp only [polylinearClaimPoints]
    rw [show List.range 4 = [0, 1, 2, 3] from rfl]
    simp only [List.map_cons, List.map_nil, List.getD_cons_succ, List.getD_cons_zero]
    norm_num
    exact ⟨by rw [lerpColor_self]; rfl, by rw [lerpColor_self]; rfl, by rw [lerpColor_zero],
      by rw [lerpColor_one_two]⟩

/-! ## C4 / C9 / C10: ParseRLE -/

/-- C4 (code bug evaluation): decoding the 2×2 RLE pattern `o$!` at origin
(0,0) of a 6×6 grid places the pattern at the translated center (3,3); the
`$` must fill the remaining column of the finished row (cell x=4, y=3) and
`!` must back-fill the last row (cell x=3, y=4) with dead cells, but
`FillDead` computes the remaining width as `width - x` with `x` the
*absolute* column (2 - 4 < 0), so nothing is filled and both pre-existing
live cells survive the decode. -/
theorem C4_fillDead_gap_eval :
    rleRuleOf (ParseRLE [] (mkGrid 6 6 [(4, 3, 0), (3, 4, 0)])
      ["x = 2, y = 2".toList, "o$!".toList] 0 0) = some [] ∧
    rleAliveAt (ParseRLE [] (mkGrid 6 6 [(4, 3, 0), (3, 4, 0)])
      ["x = 2, y = 2".toList, "o$!".toList] 0 0) 3 4 = some true ∧
    rleAliveAt (ParseRLE [] (mkGrid 6 6 [(4, 3, 0), (3, 4, 0)])
      ["x = 2, y = 2".toList, "o$!".toList] 0 0) 4 3 = some true ∧
    rleAliveAt (ParseRLE [] (mkGrid 6 6 [(4, 3, 0), (3, 4, 0)])
      ["x = 2, y = 2".toList, "o$!".toList] 0 0) 3 3 = some true := by
  refine ⟨by decide, by decide, by decide, by decide⟩

/-- C10: `ParseRLE`'s pre-header scan matches each line against the header
regex first and otherwise reads `line[0]`: a non-empty non-`#` line yields
the missing-header error, the scan is total when every line is non-empty,
and an empty line before the header is an out-of-range panic (`none`)
rather than an error. -/
theorem C10_preheader_scan :
    (∀ (c : Char) (cs : List Char) (rest : List (List Char)),
      findHeaderMatch (c :: cs) = none → c ≠ '#' →
      scanHeader ((c :: cs) :: rest) = some .headerErr) ∧
    (∀ lines : List (List Char), (∀ l ∈ lines, l ≠ []) → scanHeader lines ≠ none) ∧
    (∀ r : List Char,
      ParseRLE r (mkGrid 3 3 []) ["".toList, "x = 1, y = 1".toList, "!".toList] 0 0 = none) := by
  refine ⟨?_, ?_, ?_⟩
  · intro c cs rest hm hc
    simp [scanHeader, hm, hc]
  · intro lines hne
    induction lines with
    | nil => simp [scanHeader]
    | cons l rest ih =>
      cases hf : findHeaderMatch l with
      | some v =>
        obtain ⟨w, hh, ru⟩ := v
        simp [scanHeader, hf]
      | none =>
        cases l with
        | nil => exact absurd rfl (hne [] (List.mem_cons_self ..))
        | cons c cs =>
          by_cases hc : c = '#'
          · simp only [scanHeader, hf, if_pos hc]
            exact ih (fun l hm => hne l (List.mem_cons_of_mem _ hm))
          · simp [scanHeader, hf, hc]
  · intro r
    rfl

/-- C10 witness: the scan theorem at concrete inputs. -/
theorem C10_preheader_scan_witness :
    scanHeader (('z' :: "zz".toList) :: []) = some .headerErr ∧
    scanHeader ["#c".toList, "x = 1, y = 1".toList] ≠ none :=
  ⟨C10_preheader_scan.1 'z' "zz".toList [] (by decide) (by decide),
   C10_preheader_scan.2.1 ["#c".toList, "x = 1, y = 1".toList] (by decide)⟩

/-- C9: when any line matches the header regex, the rule configuration is
overwritten with the regex's third capture group on every successful
decode; `FindStringSubmatch` reports a non-participating rule group as the
empty string (always yielding 4 entries, so `len(header) == 4` holds), so
a header without `rule =` replaces the caller's default rule with `""`
instead of leaving it unchanged. -/
theorem C9_rule_overwrite :
    (∀ (lines : List (List Char)) (g : Grid) (x y : Int) (r : List Char)
        (w hh ru : List Char) (rest : List (List Char)) (g1 : Grid) (r1 : List Char),
      scanHeader lines = some (.found w hh ru rest) →
      ParseRLE r g lines x y = some (.ok (g1, r1)) → r1 = ru) ∧
    findHeaderMatch "x = 3, y = 2".toList = some ("3".toList, "2".toList, []) ∧
    (∀ r : List Char, rleRuleOf (ParseRLE r (mkGrid 8 8 [])
        ["x = 3, y = 2".toList, "o!".toList] 0 0) = some []) := by
  refine ⟨?_, by decide, ?_⟩
  · intro lines g x y r w hh ru rest g1 r1 hscan hres
    unfold ParseRLE at hres
    cases hT : TranslateXY g x y with
    | none =>
      rw [hT] at hres
      simp at hres
    | some xy =>
      obtain ⟨x1, y1⟩ := xy
      rw [hT, hscan] at hres
      dsimp only at hres
      by_cases hre : rest.isEmpty
      · simp [hre] at hres
      · rw [if_neg hre] at hres
        cases hw : goAtoi w with
        | none =>
          rw [hw] at hres
          simp at hres
        | some wv =>
          cases hhv : goAtoi hh with
          | none =>
            rw [hw, hhv] at hres
            simp at hres
          | some hv =>
            rw [hw, hhv] at hres
            dsimp only at hres
            cases hb : rleBody wv hv x1 y1 rest ⟨g, x1, y1, 0⟩ with
            | none =>
              rw [hb] at hres
              simp at hres
            | some g2 =>
              rw [hb] at hres
              simp only [Option.some.injEq] at hres
              cases hres
              rfl
  · intro r
    rfl

/-- C9 witness: the overwrite theorem applied to a concrete decode whose
header has no `rule =` field. -/
theorem C9_rule_overwrite_witness :
    scanHeader ["x = 3, y = 2".toList, "o!".toList] =
      some (.found "3".toList "2".toList [] ["o!".toList]) ∧
    rleRuleOf (ParseRLE "B3/S23".toList (mkGrid 8 8 [])
      ["x = 3, y = 2".toList, "o!".toList] 0 0) = some [] ∧
    ([] : List Char) = [] := by
  refine ⟨by decide, C9_rule_overwrite.2.2 "B3/S23".toList, ?_⟩
  have hres : ∃ g1, ParseRLE "B3/S23".toList (mkGrid 8 8 [])
      ["x = 3, y = 2".toList, "o!".toList] 0 0 = some (.ok (g1, [])) := ⟨_, rfl⟩
  obtain ⟨g1, hres⟩ := hres
  exact C9_rule_overwrite.1 ["x = 3, y = 2".toList, "o!".toList] (mkGrid 8 8 []) 0 0
    "B3/S23".toList "3".toList "2".toList [] ["o!".toList] g1 [] (by decide) hres
